import Mathlib

/-!
Shallow embedding of the sliding-window grid trading engine
(`src/strategies/sliding_window_grid.py`), the Extended venue adapter's
open-orders cache and depth stall detection (`src/jiaoyisuoshili/extended.py`),
and the configuration store (`src/core/config_manager.py`).

Python `Decimal` and `float` values are modelled as `ℚ` (all arithmetic in the
verified paths is exact at the magnitudes involved).  `Decimal.quantize` with
`ROUND_UP` / `ROUND_DOWN` rounds away from / towards zero; Python's `round`
on floats rounds half to even.  Python's stable `list.sort` is modelled by a
stable insertion sort (stable sorts by the same key order agree pointwise).
-/

namespace Wangge

/-! ### Numeric helpers: Decimal and float rounding -/

/-- `Decimal.quantize(Decimal('1'), rounding=ROUND_UP)`: round to an integer
away from zero. -/
def decRoundUpInt (x : ℚ) : ℤ :=
  if 0 ≤ x then ⌈x⌉ else ⌊x⌋

/-- `Decimal.quantize(Decimal('1'), rounding=ROUND_DOWN)`: round to an integer
towards zero. -/
def decRoundDownInt (x : ℚ) : ℤ :=
  if 0 ≤ x then ⌊x⌋ else ⌈x⌉

/-- Python 3 `round(x)` on a float with no digit argument: round half to even. -/
def roundHalfEven (x : ℚ) : ℤ :=
  let f := ⌊x⌋
  let r := x - (f : ℚ)
  if r < 1/2 then f
  else if 1/2 < r then f + 1
  else if f % 2 = 0 then f else f + 1

/-! ### Data model of the strategy -/

inductive Side where
  | buy
  | sell
deriving DecidableEq, Repr

/-- The grid configuration of `SlidingWindowGridStrategy` (`self.grid_config`). -/
structure GridConfig where
  totalOrders : ℕ
  windowPercent : ℚ
  sellRatio : ℚ
  buyRatio : ℚ
  basePriceInterval : ℚ
  safeGap : ℚ
  maxDriftBuffer : ℚ
  minValidPrice : ℚ
  maxMultiplier : ℚ
  orderCooldown : ℚ
deriving Repr

/-- The class-level `GRID_CONFIG` defaults. -/
def defaultGridConfig : GridConfig :=
  { totalOrders := 18
    windowPercent := 12/100
    sellRatio := 1/2
    buyRatio := 1/2
    basePriceInterval := 10
    safeGap := 20
    maxDriftBuffer := 2000
    minValidPrice := 10000
    maxMultiplier := 15
    orderCooldown := 3/2 }

/-- A live open order as returned by `order_manager.get_open_orders`. -/
structure OpenOrder where
  orderId : String
  side : Side
  price : ℚ
deriving DecidableEq, Repr

/-- The dictionary `_get_market_data` returns. -/
structure MarketData where
  askPrice : ℚ
  bidPrice : ℚ
  existingSellOrders : List ℚ
  existingBuyOrders : List ℚ
  allSellOrdersCount : ℕ
  allBuyOrdersCount : ℕ
  sellOrdersByPrice : List (ℚ × List OpenOrder)
  buyOrdersByPrice : List (ℚ × List OpenOrder)
deriving Repr

/-- An entry of the `cancel_orders` list produced by `_calculate_target_prices`:
`{'type': ..., 'price': ...}` with an optional `'order_id'`. -/
structure CancelOrder where
  side : Side
  price : ℚ
  orderId : Option String
deriving DecidableEq, Repr

/-- The dictionary `_calculate_target_prices` returns. -/
structure PlanResult where
  sellPrices : List ℚ
  buyPrices : List ℚ
  cancelOrders : List CancelOrder
deriving Repr

/-! ### `_get_market_data`: grouping open orders -/

/-- Append `o` to the group of its price, or start a new group (Python dicts
iterate in insertion order, so the association list models
`sell_orders_by_price` / `buy_orders_by_price`). -/
def addToGroups (groups : List (ℚ × List OpenOrder)) (o : OpenOrder) :
    List (ℚ × List OpenOrder) :=
  match groups with
  | [] => [(o.price, [o])]
  | (p, l) :: rest =>
      if p = o.price then (p, l ++ [o]) :: rest
      else (p, l) :: addToGroups rest o

/-- Stable insertion into an ascending sorted list. -/
def insertAsc (x : ℚ) : List ℚ → List ℚ
  | [] => [x]
  | y :: ys => if x ≤ y then x :: y :: ys else y :: insertAsc x ys

/-- `sorted(set(l))`: ascending sorted list of the distinct values. -/
def sortedDedupAsc (l : List ℚ) : List ℚ :=
  (l.dedup).foldr insertAsc []

/-- Stable insertion into a descending sorted list. -/
def insertDesc (x : ℚ) : List ℚ → List ℚ
  | [] => [x]
  | y :: ys => if y ≤ x then x :: y :: ys else y :: insertDesc x ys

/-- `sorted(set(l), reverse=True)`: descending sorted list of distinct values. -/
def sortedDedupDesc (l : List ℚ) : List ℚ :=
  (l.dedup).foldr insertDesc []

/-- `_get_market_data`, given the ticker quotes and the raw open-orders list
(orders with a missing price are dropped by the source's `if price:` guard,
which the `List OpenOrder` input has already applied). -/
def getMarketData (askPrice bidPrice : ℚ) (openOrders : List OpenOrder) :
    MarketData :=
  let sells := openOrders.filter (fun o => o.side = Side.sell)
  let buys := openOrders.filter (fun o => o.side = Side.buy)
  { askPrice := askPrice
    bidPrice := bidPrice
    existingSellOrders := sortedDedupAsc (sells.map (·.price))
    existingBuyOrders := sortedDedupDesc (buys.map (·.price))
    allSellOrdersCount := sells.length
    allBuyOrdersCount := buys.length
    sellOrdersByPrice := sells.foldl addToGroups []
    buyOrdersByPrice := buys.foldl addToGroups [] }

/-! ### `_calculate_target_prices`, split into its successive locals -/

def midPrice (md : MarketData) : ℚ := (md.askPrice + md.bidPrice) / 2

def halfWindow (cfg : GridConfig) (md : MarketData) : ℚ :=
  midPrice md * cfg.windowPercent / 2

/-- `safe_order_size = max(order_size, Decimal('0.000001'))`. -/
def safeOrderSize (orderSize : ℚ) : ℚ := max orderSize (1/1000000)

/-- `position_multiplier = abs(position_btc) / safe_order_size`. -/
def positionMultiplier (positionBtc orderSize : ℚ) : ℚ :=
  |positionBtc| / safeOrderSize orderSize

/-- The ratio-adjustment block: returns
`(final_sell_ratio, final_buy_ratio, is_at_limit)` before the clamp. -/
def adjustedRatios (cfg : GridConfig) (positionBtc orderSize : ℚ) :
    ℚ × ℚ × Bool :=
  let m := positionMultiplier positionBtc orderSize
  if cfg.maxMultiplier ≤ m then
    if 0 < positionBtc then (1, 0, true)
    else if positionBtc < 0 then (0, 1, true)
    else (cfg.sellRatio, cfg.buyRatio, true)
  else if 0 < m then
    let reductionRatio := m / cfg.maxMultiplier
    if 0 < positionBtc then
      let finalBuy := max 0 (cfg.buyRatio - reductionRatio * cfg.buyRatio)
      (1 - finalBuy, finalBuy, false)
    else if positionBtc < 0 then
      let finalSell := max 0 (cfg.sellRatio - reductionRatio * cfg.sellRatio)
      (finalSell, 1 - finalSell, false)
    else (cfg.sellRatio, cfg.buyRatio, false)
  else (cfg.sellRatio, cfg.buyRatio, false)

/-- Ratios after the `[0.1, 0.9]` clamp, which is skipped when the hard cap is
active. -/
def finalRatios (cfg : GridConfig) (positionBtc orderSize : ℚ) : ℚ × ℚ :=
  let r := adjustedRatios cfg positionBtc orderSize
  if r.2.2 then (r.1, r.2.1)
  else (max (1/10) (min (9/10) r.1), max (1/10) (min (9/10) r.2.1))

/-- `sell_count = int(round(total_orders * float(final_sell_ratio)))`. -/
def sellCount (cfg : GridConfig) (positionBtc orderSize : ℚ) : ℤ :=
  roundHalfEven ((cfg.totalOrders : ℚ) * (finalRatios cfg positionBtc orderSize).1)

/-- `buy_count = total_orders - sell_count`. -/
def buyCount (cfg : GridConfig) (positionBtc orderSize : ℚ) : ℤ :=
  (cfg.totalOrders : ℤ) - sellCount cfg positionBtc orderSize

/-- `sell_start` after the rounding step and the `<=` adjustment. -/
def sellStart (cfg : GridConfig) (md : MarketData) : ℚ :=
  let s0 := (decRoundUpInt ((md.askPrice + cfg.safeGap) / cfg.basePriceInterval) : ℚ)
      * cfg.basePriceInterval
  if s0 ≤ md.askPrice + cfg.safeGap then s0 + cfg.basePriceInterval else s0

/-- `buy_end` after the rounding step and the `>=` adjustment. -/
def buyEnd (cfg : GridConfig) (md : MarketData) : ℚ :=
  let e0 := (decRoundDownInt ((md.bidPrice - cfg.safeGap) / cfg.basePriceInterval) : ℚ)
      * cfg.basePriceInterval
  if md.bidPrice - cfg.safeGap ≤ e0 then e0 - cfg.basePriceInterval else e0

/-- The `ideal_sell_prices` loop (the `break` makes it a `takeWhile`). -/
def idealSellPrices (cfg : GridConfig) (md : MarketData)
    (positionBtc orderSize : ℚ) : List ℚ :=
  (((List.range (sellCount cfg positionBtc orderSize).toNat).map
      (fun i : ℕ => sellStart cfg md + (i : ℚ) * cfg.basePriceInterval)).takeWhile
    (fun p => p ≤ midPrice md + halfWindow cfg md + cfg.maxDriftBuffer))

/-- The `ideal_buy_prices` loop with its two `break` conditions. -/
def idealBuyPrices (cfg : GridConfig) (md : MarketData)
    (positionBtc orderSize : ℚ) : List ℚ :=
  (((List.range (buyCount cfg positionBtc orderSize).toNat).map
      (fun i : ℕ => buyEnd cfg md - (i : ℚ) * cfg.basePriceInterval)).takeWhile
    (fun p => decide (midPrice md - halfWindow cfg md - cfg.maxDriftBuffer ≤ p) &&
      decide (cfg.minValidPrice ≤ p)))

def validatedSellPrices (cfg : GridConfig) (md : MarketData)
    (positionBtc orderSize : ℚ) : List ℚ :=
  (idealSellPrices cfg md positionBtc orderSize).filter
    (fun p => md.askPrice + cfg.safeGap ≤ p)

def validatedBuyPrices (cfg : GridConfig) (md : MarketData)
    (positionBtc orderSize : ℚ) : List ℚ :=
  (idealBuyPrices cfg md positionBtc orderSize).filter
    (fun p => p ≤ md.bidPrice - cfg.safeGap)

/-- `ideal_prices_set = set(validated_sell_prices + validated_buy_prices)`;
membership in the list models membership in the Python set. -/
def idealPricesList (cfg : GridConfig) (md : MarketData)
    (positionBtc orderSize : ℚ) : List ℚ :=
  validatedSellPrices cfg md positionBtc orderSize ++
    validatedBuyPrices cfg md positionBtc orderSize

def newSellPrices (cfg : GridConfig) (md : MarketData)
    (positionBtc orderSize : ℚ) : List ℚ :=
  (validatedSellPrices cfg md positionBtc orderSize).filter
    (fun p => p ∉ md.existingSellOrders)

def newBuyPrices (cfg : GridConfig) (md : MarketData)
    (positionBtc orderSize : ℚ) : List ℚ :=
  (validatedBuyPrices cfg md positionBtc orderSize).filter
    (fun p => p ∉ md.existingBuyOrders)

/-- Phase 1 of the cancel selection: duplicates at a single price level are
cancelled by order id, but only when that price is in the ideal price set. -/
def dupCancels (cfg : GridConfig) (md : MarketData)
    (positionBtc orderSize : ℚ) : List CancelOrder :=
  let ideal := idealPricesList cfg md positionBtc orderSize
  (md.sellOrdersByPrice.flatMap (fun g =>
    if 1 < g.2.length ∧ g.1 ∈ ideal then
      g.2.tail.map (fun o => CancelOrder.mk Side.sell g.1 (some o.orderId))
    else [])) ++
  (md.buyOrdersByPrice.flatMap (fun g =>
    if 1 < g.2.length ∧ g.1 ∈ ideal then
      g.2.tail.map (fun o => CancelOrder.mk Side.buy g.1 (some o.orderId))
    else []))

/-- Stable insertion sort, descending by the attached distance; models
Python's stable `list.sort(key=..., reverse=True)`. -/
def insertFar (x : CancelOrder × ℚ) :
    List (CancelOrder × ℚ) → List (CancelOrder × ℚ)
  | [] => [x]
  | y :: ys => if y.2 ≤ x.2 then x :: y :: ys else y :: insertFar x ys

def sortFarDesc : List (CancelOrder × ℚ) → List (CancelOrder × ℚ)
  | [] => []
  | x :: xs => insertFar x (sortFarDesc xs)

/-- The far orders paired with their distance from the mid price, restricted to
those at least `2 * safe_gap` away. -/
def farWithDistance (cfg : GridConfig) (md : MarketData)
    (positionBtc orderSize : ℚ) : List (CancelOrder × ℚ) :=
  let ideal := idealPricesList cfg md positionBtc orderSize
  let farSell := md.existingSellOrders.filter (fun p => p ∉ ideal)
  let farBuy := md.existingBuyOrders.filter (fun p => p ∉ ideal)
  let allFar := farSell.map (fun p => CancelOrder.mk Side.sell p none) ++
    farBuy.map (fun p => CancelOrder.mk Side.buy p none)
  (allFar.map (fun o => (o, |o.price - midPrice md|))).filter
    (fun x => cfg.safeGap * 2 ≤ x.2)

/-- The selection loop over the sorted far orders: stop at 10 queued cancels or
once `excess` many are queued. -/
def farLoop (excess : ℤ) (acc : List CancelOrder) :
    List (CancelOrder × ℚ) → List CancelOrder
  | [] => acc
  | x :: rest =>
      if 10 ≤ acc.length then acc
      else if excess ≤ (acc.length : ℤ) then acc
      else farLoop excess (acc ++ [x.1]) rest

/-- The complete `orders_to_cancel` list. -/
def cancelOrdersOf (cfg : GridConfig) (md : MarketData)
    (positionBtc orderSize : ℚ) : List CancelOrder :=
  let dups := dupCancels cfg md positionBtc orderSize
  let uniq : ℤ := md.existingSellOrders.length + md.existingBuyOrders.length
  if (cfg.totalOrders : ℤ) < uniq ∨
      sellCount cfg positionBtc orderSize < (md.existingSellOrders.length : ℤ) ∨
      buyCount cfg positionBtc orderSize < (md.existingBuyOrders.length : ℤ) then
    farLoop (uniq - cfg.totalOrders) dups
      (sortFarDesc (farWithDistance cfg md positionBtc orderSize))
  else dups

/-- `_calculate_target_prices`. -/
def calcTargetPrices (cfg : GridConfig) (md : MarketData)
    (positionBtc orderSize : ℚ) : PlanResult :=
  { sellPrices := newSellPrices cfg md positionBtc orderSize
    buyPrices := newBuyPrices cfg md positionBtc orderSize
    cancelOrders := cancelOrdersOf cfg md positionBtc orderSize }

/-! ### `_execute_batch_orders`: the submission sequence of a plan -/

/-- The sequence of limit-order submissions attempted by
`_execute_batch_orders(buy_prices, sell_prices)`: buys first, then sells. -/
def executeBatchOrders (buyPrices sellPrices : List ℚ) : List (Side × ℚ) :=
  buyPrices.map (fun p => (Side.buy, p)) ++ sellPrices.map (fun p => (Side.sell, p))

/-! ### The far-cancel apply phase of `update` (step 3) -/

/-- In `update`, a planned cancel without an `order_id` is skipped when its
price is within `BASE_PRICE_INTERVAL * (MAX_MULTIPLIER / 4)` of the current
mid price; cancels carrying an `order_id` are sent directly. -/
def cancelIsSkipped (cfg : GridConfig) (md : MarketData) (c : CancelOrder) : Bool :=
  match c.orderId with
  | some _ => false
  | none =>
      |c.price - (md.askPrice + md.bidPrice) / 2| ≤
        cfg.basePriceInterval * (cfg.maxMultiplier / 4)

/-! ### `stop` -/

/-- Outcomes of the venue interactions performed by `stop`.
`order_manager.get_open_orders` forwards adapter errors, so it may raise;
`position_manager.get_position` catches every exception internally and
returns a cached or empty position, so it is total. -/
structure StopEnv where
  openOrdersResult : Except String (List OpenOrder)
  cancelOk : String → Bool
  positionQty : ℚ
  closeResult : Except String String

/-- The runtime state of a strategy instance that `stop` touches. -/
structure StrategyState where
  isRunning : Bool
  activeOrders : List String
deriving Repr

inductive StopStatus where
  | notRunning
  | stopped
  | error
deriving DecidableEq, Repr

structure StopResult where
  status : StopStatus
  canceledOrders : ℕ
  closedPosition : ℚ
  closeResult : Option String
deriving Repr

/-- `SlidingWindowGridStrategy.stop`.  The `try` block starts at the
`get_open_orders` call: an exception there reaches the outer handler, which
returns an error response without touching `is_running` or `active_orders`.
Individual cancel failures and a failing reduce-only close are caught inside
the loop and tolerated. -/
def stopStrategy (st : StrategyState) (env : StopEnv) :
    StrategyState × StopResult :=
  if ¬ st.isRunning then (st, ⟨StopStatus.notRunning, 0, 0, none⟩)
  else
    match env.openOrdersResult with
    | Except.error _ => (st, ⟨StopStatus.error, 0, 0, none⟩)
    | Except.ok orders =>
        let canceled := (orders.filter (fun o => env.cancelOk o.orderId)).length
        let qty := env.positionQty
        let closeRes : Option String :=
          if qty ≠ 0 then
            match env.closeResult with
            | Except.ok r => some r
            | Except.error _ => none
          else none
        ({ isRunning := false, activeOrders := [] },
          ⟨StopStatus.stopped, canceled, qty, closeRes⟩)

/-! ### The Extended adapter's open-orders cache (`extended.py`) -/

/-- A normalized order as held in the adapter's `open_orders` cache. -/
structure ExtOrder where
  orderId : String
  symbol : String
  status : String
deriving DecidableEq, Repr

/-- The open-orders cache: `self.open_orders` (an insertion-ordered
`order_id → order` map) together with `self.orders_cache_timestamp`
(initialised to `0` at adapter creation). -/
structure OrdersCacheState where
  ordersCacheTimestamp : ℚ
  openOrders : List (String × ExtOrder)
deriving Repr

/-- `self.orders_cache_ttl = 5.0`. -/
def ordersCacheTtl : ℚ := 5

/-- The adapter state at creation: empty cache, zero timestamp. -/
def initCacheState : OrdersCacheState := ⟨0, []⟩

/-- Insert or overwrite a key in an insertion-ordered map. -/
def mapSet (m : List (String × ExtOrder)) (k : String) (v : ExtOrder) :
    List (String × ExtOrder) :=
  if m.any (fun e => e.1 = k) then
    m.map (fun e => if e.1 = k then (k, v) else e)
  else m ++ [(k, v)]

/-- The `cache_valid` test of `Extended.get_open_orders`. -/
def cacheValid (st : OrdersCacheState) (useCache : Bool) (now : ℚ) : Bool :=
  useCache && decide (0 < st.ordersCacheTimestamp) &&
    decide (now - st.ordersCacheTimestamp < ordersCacheTtl)

/-- `Extended.get_open_orders`, with the venue's reply to
`account.get_open_orders()` supplied as `venueOrders` (the refresh path).
Returns the order list and the post-call cache state.  On the cached path the
result is filtered to open statuses (and the symbol); on the refresh path the
cache is rebuilt from the venue reply and the timestamp is set to the time
read at the start of the call. -/
def extGetOpenOrders (st : OrdersCacheState) (symbol : Option String)
    (useCache : Bool) (now : ℚ) (venueOrders : List ExtOrder) :
    List ExtOrder × OrdersCacheState :=
  if cacheValid st useCache now then
    let orders := st.openOrders.map (·.2)
    let orders := match symbol with
      | some s => orders.filter (fun o =>
          o.symbol = s ∧ (o.status = "NEW" ∨ o.status = "PARTIALLY_FILLED"))
      | none => orders.filter (fun o =>
          o.status = "NEW" ∨ o.status = "PARTIALLY_FILLED")
    (orders, st)
  else
    let kept := match symbol with
      | some s => venueOrders.filter (fun o => o.symbol = s)
      | none => venueOrders
    let cache := (kept.filter (fun o =>
        o.status = "NEW" ∨ o.status = "PARTIALLY_FILLED")).map
      (fun o => (o.orderId, o))
    (kept, ⟨now, cache⟩)

/-- The cache-touching events of the adapter: a refresh inside
`get_open_orders`, the insertion done by `create_order`, and the removal done
by `cancel_order`.  Each stamps `orders_cache_timestamp` with the current
time. -/
inductive CacheEvent where
  | refresh (t : ℚ) (symbol : Option String) (venueOrders : List ExtOrder)
  | place (t : ℚ) (o : ExtOrder)
  | cancel (t : ℚ) (orderId : String)

def CacheEvent.time : CacheEvent → ℚ
  | refresh t _ _ => t
  | place t _ => t
  | cancel t _ => t

def applyCacheEvent (st : OrdersCacheState) : CacheEvent → OrdersCacheState
  | CacheEvent.refresh t symbol venueOrders =>
      (extGetOpenOrders st symbol false t venueOrders).2
  | CacheEvent.place t o => ⟨t, mapSet st.openOrders o.orderId o⟩
  | CacheEvent.cancel t orderId =>
      ⟨t, st.openOrders.filter (fun e => e.1 ≠ orderId)⟩

/-! ### The Extended adapter's depth stall detection (`extended.py`) -/

/-- One entry of `self.last_depth_prices[symbol]`. -/
structure DepthPriceEntry where
  bid : ℚ
  ask : ℚ
  timestamp : ℚ
deriving Repr

/-- The outcome of the freshness check in `Extended.get_depth` once the
streaming order book reported a best bid and ask. -/
structure StallResult where
  useRest : Bool
  dropSubscription : Bool
  newEntry : Option DepthPriceEntry
deriving Repr

/-- The per-query stall check of `Extended.get_depth`: `entry` is the last
observed `(bid, ask, timestamp)` for this symbol (`none` on the first query),
`curBid`/`curAsk` the streaming best quotes, `now` the current time.  If the
prices are unchanged and the last change is more than 30 seconds old, the
subscription is dropped (the next call recreates it) and this query falls
back to REST. -/
def depthStallCheck (entry : Option DepthPriceEntry) (curBid curAsk now : ℚ) :
    StallResult :=
  match entry with
  | none => ⟨false, false, some ⟨curBid, curAsk, now⟩⟩
  | some e =>
      if e.bid = curBid ∧ e.ask = curAsk then
        if 30 < now - e.timestamp then ⟨true, true, some e⟩
        else ⟨false, false, some e⟩
      else ⟨false, false, some ⟨curBid, curAsk, now⟩⟩

/-! ### The cooldown pacing of `_execute_batch_orders` -/

/-- What `place_order` produced for one target price: a result carrying an
`order_id` (success), a result without one, or an exception. -/
inductive PlaceOutcome where
  | success
  | noId
  | failure
deriving DecidableEq, Repr

/-- One iteration of the `_execute_batch_orders` loop, with the nonnegative
real-time delays of its phases: `preDelta` from the start of the iteration to
the `time.time()` read of the cooldown check, `placeDelta` from the end of
the cooldown wait to the submission instant, `stampDelta` from the submission
to the `time.time()` read that stamps `last_order_time`. -/
structure BatchStep where
  preDelta : ℚ
  placeDelta : ℚ
  stampDelta : ℚ
  outcome : PlaceOutcome

/-- The wall clock, `self.last_order_time`, and the times of the successful
submissions so far (oldest first). -/
structure ClockState where
  clock : ℚ
  lastOrderTime : ℚ
  submissions : List ℚ

/-- One iteration of the loop body of `_execute_batch_orders`: check the
cooldown and sleep the remainder, submit, stamp `last_order_time` on success,
then sleep `order_cooldown` (skipped when the submission raised). -/
def execStep (cd : ℚ) (st : ClockState) (s : BatchStep) : ClockState :=
  let tCheck := st.clock + s.preDelta
  let afterWait :=
    if tCheck - st.lastOrderTime < cd then st.lastOrderTime + cd else tCheck
  let tSub := afterWait + s.placeDelta
  let afterPlace := tSub + s.stampDelta
  match s.outcome with
  | PlaceOutcome.success =>
      { clock := afterPlace + cd, lastOrderTime := afterPlace,
        submissions := st.submissions ++ [tSub] }
  | PlaceOutcome.noId =>
      { clock := afterPlace + cd, lastOrderTime := st.lastOrderTime,
        submissions := st.submissions }
  | PlaceOutcome.failure =>
      { clock := afterPlace, lastOrderTime := st.lastOrderTime,
        submissions := st.submissions }

/-- A whole `_execute_batch_orders` call (and, by concatenating step lists,
any sequence of calls by the same strategy instance: `last_order_time`
persists on the instance between ticks, and time passing between batches is
absorbed into the first step's `preDelta`). -/
def runBatch (cd : ℚ) (st : ClockState) (steps : List BatchStep) : ClockState :=
  steps.foldl (execStep cd) st

/-! ### The configuration store (`config_manager.py`) -/

/-- A JSON account record, modelled as an insertion-ordered field map. -/
abbrev ConfigRecord := List (String × String)

def lookupField (r : ConfigRecord) (k : String) : Option String :=
  match r.find? (fun e => e.1 = k) with
  | some e => some e.2
  | none => none

def hasField (r : ConfigRecord) (k : String) : Bool :=
  r.any (fun e => e.1 = k)

/-- `r[k] = v` on a dict: overwrite in place or append. -/
def setField (r : ConfigRecord) (k v : String) : ConfigRecord :=
  if hasField r k then r.map (fun e => if e.1 = k then (k, v) else e)
  else r ++ [(k, v)]

/-- The keyed (new-format) configuration store `account_key → record`. -/
abbrev ConfigStore := List (String × ConfigRecord)

def storeKeys (s : ConfigStore) : List String := s.map (·.1)

def storeLookup (s : ConfigStore) (k : String) : Option ConfigRecord :=
  match s.find? (fun e => e.1 = k) with
  | some e => some e.2
  | none => none

def storeSet (s : ConfigStore) (k : String) (r : ConfigRecord) : ConfigStore :=
  if k ∈ storeKeys s then s.map (fun e => if e.1 = k then (k, r) else e)
  else s ++ [(k, r)]

/-- The legacy-format detection `all_configs and 'name' in all_configs and
'api_key' in all_configs`, applied to a keyed store.  When it triggers on a
keyed store the source treats a nested record as a flat string field and
crashes; the theorems below assume it does not trigger. -/
def legacyMisdetect (s : ConfigStore) : Prop :=
  s ≠ [] ∧ "name" ∈ storeKeys s ∧ "api_key" ∈ storeKeys s

/-- Python's `str.lower()` on the ASCII venue names the store handles:
character-wise lower-casing. -/
def strToLower (s : String) : String := String.mk (s.data.map Char.toLower)

/-- Python's `str.capitalize()`: first character upper-cased, the rest
lower-cased. -/
def pythonCapitalize (s : String) : String :=
  match s.data with
  | [] => ""
  | c :: cs => String.mk (c.toUpper :: cs.map Char.toLower)

/-- The candidate keys tried by `save_exchange_config`:
`<base>`, `<base>_1`, `<base>_2`, …. -/
def keyCandidate (base : String) : ℕ → String
  | 0 => base
  | n + 1 => base ++ "_" ++ Nat.repr (n + 1)

/-- The `while account_key in all_configs` loop, fuelled: try candidates
`c, c+1, …` until one is free. -/
def genKeyFuel (base : String) (keys : List String) : ℕ → ℕ → String
  | 0, c => keyCandidate base c
  | fuel + 1, c =>
      if keyCandidate base c ∈ keys then genKeyFuel base keys fuel (c + 1)
      else keyCandidate base c

/-- The `account_key` generated by `save_exchange_config` when the record
carries none.  `keys.length + 1` rounds of the loop always suffice (the
candidates are pairwise distinct). -/
def genAccountKey (exchangeName : String) (store : ConfigStore) : String :=
  genKeyFuel (strToLower exchangeName) (storeKeys store) ((storeKeys store).length + 1) 0

/-- `ConfigManager.save_exchange_config` on a keyed store (the returned store
is what `_save_config` persists). -/
def saveExchangeConfig (exchangeName : String) (r : ConfigRecord)
    (store : ConfigStore) : ConfigStore :=
  let r1 := setField r "name" (strToLower exchangeName)
  let key :=
    if hasField r1 "account_key" then (lookupField r1 "account_key").getD ""
    else genAccountKey exchangeName store
  let r2 :=
    if hasField r1 "account_key" then r1 else setField r1 "account_key" key
  let r3 :=
    if hasField r2 "account_alias" then r2
    else setField r2 "account_alias" (pythonCapitalize exchangeName ++ "账号")
  storeSet store key r3

/-- `ConfigManager.get_account_config` on a keyed store. -/
def getAccountConfig (accountKey : String) (store : ConfigStore) :
    Option ConfigRecord :=
  match storeLookup store accountKey with
  | none => none
  | some r =>
      let r1 :=
        if hasField r "account_key" then r
        else setField r "account_key" accountKey
      let r2 :=
        if hasField r1 "account_alias" then r1
        else setField r1 "account_alias"
          (pythonCapitalize ((lookupField r1 "name").getD "Unknown") ++ "账号")
      some r2

/-! ### Concrete scenarios from the specification's end-to-end examples -/

/-- The cold-start configuration: `order_size=0.001, total_orders=4,
window_percent=0.12, interval=10, safe_gap=20, sell_ratio=buy_ratio=0.5`,
remaining parameters at their defaults. -/
def exCfg : GridConfig :=
  { totalOrders := 4
    windowPercent := 12/100
    sellRatio := 1/2
    buyRatio := 1/2
    basePriceInterval := 10
    safeGap := 20
    maxDriftBuffer := 2000
    minValidPrice := 10000
    maxMultiplier := 15
    orderCooldown := 3/2 }

/-- `bid=50000, ask=50010`, no open orders. -/
def exMdFlat : MarketData := getMarketData 50010 50000 []

/-- A configuration family exhibiting the skipped far cancel: a single grid
slot, zero window and drift buffer, the given interval/safe-gap/multiplier,
and a minimum valid price above the market so the tick plans no ladder
prices at all. -/
def skipCfg (interval maxMult gap : ℚ) : GridConfig :=
  { totalOrders := 0
    windowPercent := 0
    sellRatio := 1/2
    buyRatio := 1/2
    basePriceInterval := interval
    safeGap := gap
    maxDriftBuffer := 0
    minValidPrice := 10000
    maxMultiplier := maxMult
    orderCooldown := 0 }

/-- Quotes pinned at `quote` with two resting buys at `p1` and `p2` (as
`_get_market_data` would report them). -/
def farMd (quote p1 p2 : ℚ) : MarketData :=
  { askPrice := quote
    bidPrice := quote
    existingSellOrders := []
    existingBuyOrders := [p1, p2]
    allSellOrdersCount := 0
    allBuyOrdersCount := 2
    sellOrdersByPrice := []
    buyOrdersByPrice := [(p1, [⟨"f1", Side.buy, p1⟩]), (p2, [⟨"f2", Side.buy, p2⟩])] }

/-- Quotes pinned at `quote`, one resting buy at each price of `ps`, each a
singleton price level (as `_get_market_data` would report them). -/
def manyFarMd (quote : ℚ) (ps : List ℚ) : MarketData :=
  { askPrice := quote
    bidPrice := quote
    existingSellOrders := []
    existingBuyOrders := ps
    allSellOrdersCount := 0
    allBuyOrdersCount := ps.length
    sellOrdersByPrice := []
    buyOrdersByPrice := ps.map (fun p => (p, [⟨"f", Side.buy, p⟩])) }

/-- `bid=50000, ask=50010`, two live buys both resting at `49980`. -/
def exMdDup : MarketData :=
  getMarketData 50010 50000
    [⟨"b1", Side.buy, 49980⟩, ⟨"b2", Side.buy, 49980⟩]

/-- `bid=50000, ask=50010`, two live buys both resting at the target price
`49970`. -/
def exMdDupIdeal : MarketData :=
  getMarketData 50010 50000
    [⟨"b1", Side.buy, 49970⟩, ⟨"b2", Side.buy, 49970⟩]

/-! ## Theorems -/

theorem roundHalfEven_intCast (n : ℤ) : roundHalfEven (n : ℚ) = n := by
  simp [roundHalfEven]

theorem mem_newSellPrices_ge (cfg : GridConfig) (md : MarketData)
    (positionBtc orderSize : ℚ) {p : ℚ}
    (h : p ∈ newSellPrices cfg md positionBtc orderSize) :
    md.askPrice + cfg.safeGap ≤ p := by
  have h1 : p ∈ validatedSellPrices cfg md positionBtc orderSize :=
    (List.mem_filter.mp h).1
  have h2 := (List.mem_filter.mp h1).2
  simpa using h2

theorem mem_newBuyPrices_le (cfg : GridConfig) (md : MarketData)
    (positionBtc orderSize : ℚ) {p : ℚ}
    (h : p ∈ newBuyPrices cfg md positionBtc orderSize) :
    p ≤ md.bidPrice - cfg.safeGap := by
  have h1 : p ∈ validatedBuyPrices cfg md positionBtc orderSize :=
    (List.mem_filter.mp h).1
  have h2 := (List.mem_filter.mp h1).2
  simpa using h2

/-- C1: every limit order the strategy submits in a tick, judged against the
snapshot quotes `(bid, ask)` its plan was computed from, satisfies the
post-only safety bounds: a buy is priced at most `bid - safe_gap`, a sell at
least `ask + safe_gap`. -/
theorem c1_post_only_safety (cfg : GridConfig) (md : MarketData)
    (positionBtc orderSize : ℚ) (s : Side) (p : ℚ)
    (hmem : (s, p) ∈ executeBatchOrders
      (calcTargetPrices cfg md positionBtc orderSize).buyPrices
      (calcTargetPrices cfg md positionBtc orderSize).sellPrices) :
    (s = Side.buy → p ≤ md.bidPrice - cfg.safeGap) ∧
    (s = Side.sell → md.askPrice + cfg.safeGap ≤ p) := by
  rcases List.mem_append.mp hmem with hbuy | hsell
  · rcases List.mem_map.mp hbuy with ⟨q, hq, hpair⟩
    injection hpair with hs hp
    subst hs; subst hp
    refine ⟨fun _ => ?_, fun hcontra => by cases hcontra⟩
    exact mem_newBuyPrices_le cfg md positionBtc orderSize hq
  · rcases List.mem_map.mp hsell with ⟨q, hq, hpair⟩
    injection hpair with hs hp
    subst hs; subst hp
    constructor
    · intro hcontra; cases hcontra
    · intro _
      exact mem_newSellPrices_ge cfg md positionBtc orderSize hq

/-- C1 witness: in the cold-start scenario the sell at `50040` is part of the
submitted batch and satisfies the sell-side bound. -/
theorem c1_post_only_safety_witness :
    (Side.sell = Side.buy → (50040 : ℚ) ≤ 50000 - 20) ∧
    (Side.sell = Side.sell → (50010 : ℚ) + 20 ≤ 50040) :=
  c1_post_only_safety exCfg exMdFlat 0 (1/1000) Side.sell 50040 (by
    norm_num [executeBatchOrders, calcTargetPrices, newSellPrices, newBuyPrices,
      validatedSellPrices, validatedBuyPrices, idealSellPrices, idealBuyPrices,
      sellStart, buyEnd, decRoundUpInt, decRoundDownInt, sellCount, buyCount,
      finalRatios, adjustedRatios, positionMultiplier, safeOrderSize,
      roundHalfEven, midPrice, halfWindow, exMdFlat, getMarketData, exCfg,
      sortedDedupAsc, sortedDedupDesc, List.range_succ, List.takeWhile,
      List.filter])

/-- C2 counterexample: in the cold-start scenario the first tick does not
plan sells at `50030, 50040` and buys at `49980, 49970`.  The rounded sell
start `50030` equals `ask + safe_gap` exactly, so the source adds one more
step (and symmetrically for the buy side): the planned sells are
`50040, 50050` and the planned buys `49970, 49960`. -/
theorem c2_cold_start_counterexample :
    (calcTargetPrices exCfg exMdFlat 0 (1/1000)).sellPrices ≠ [50030, 50040] ∧
    (calcTargetPrices exCfg exMdFlat 0 (1/1000)).buyPrices ≠ [49980, 49970] ∧
    (50030 : ℚ) ∉ (calcTargetPrices exCfg exMdFlat 0 (1/1000)).sellPrices ∧
    (49980 : ℚ) ∉ (calcTargetPrices exCfg exMdFlat 0 (1/1000)).buyPrices := by
  norm_num [calcTargetPrices, newSellPrices, newBuyPrices,
    validatedSellPrices, validatedBuyPrices, idealSellPrices, idealBuyPrices,
    sellStart, buyEnd, decRoundUpInt, decRoundDownInt, sellCount, buyCount,
    finalRatios, adjustedRatios, positionMultiplier, safeOrderSize,
    roundHalfEven, midPrice, halfWindow, exMdFlat, getMarketData, exCfg,
    sortedDedupAsc, sortedDedupDesc, List.range_succ, List.takeWhile,
    List.filter]

/-- C2 amended: with configuration `order_size=0.001, total_orders=4,
window_percent=0.12, base_price_interval=10, safe_gap=20,
sell_ratio=buy_ratio=0.5`, quotes `bid=50000`/`ask=50010`, zero position and
no open orders, the first reconciliation tick plans exactly two sell orders
at `50040` and `50050` and exactly two buy orders at `49970` and `49960`
(the rounded starts `50030` and `49980` fall exactly on
`ask + safe_gap` / `bid − safe_gap`, so one extra step is taken on each
side), and cancels nothing. -/
theorem c2_cold_start :
    (calcTargetPrices exCfg exMdFlat 0 (1/1000)).sellPrices = [50040, 50050] ∧
    (calcTargetPrices exCfg exMdFlat 0 (1/1000)).buyPrices = [49970, 49960] ∧
    (calcTargetPrices exCfg exMdFlat 0 (1/1000)).cancelOrders = [] := by
  norm_num [calcTargetPrices, newSellPrices, newBuyPrices,
    validatedSellPrices, validatedBuyPrices, idealSellPrices, idealBuyPrices,
    sellStart, buyEnd, decRoundUpInt, decRoundDownInt, sellCount, buyCount,
    finalRatios, adjustedRatios, positionMultiplier, safeOrderSize,
    roundHalfEven, midPrice, halfWindow, exMdFlat, getMarketData, exCfg,
    sortedDedupAsc, sortedDedupDesc, List.range_succ, List.takeWhile,
    List.filter, cancelOrdersOf, dupCancels, idealPricesList, farWithDistance,
    sortFarDesc, farLoop]

theorem roundHalfEven_natCast (n : ℕ) : roundHalfEven (n : ℚ) = n := by
  rw [show ((n : ℕ) : ℚ) = (((n : ℤ)) : ℚ) by push_cast; ring]
  exact roundHalfEven_intCast _

/-- C3: at or above the inventory cap (`|position|/order_size ≥
max_multiplier`, inclusive) with a positive position, the ratios are forced
to `sell = 1`, `buy = 0` with the `[0.1, 0.9]` clamp skipped, `buy_count` is
`0`, and no buy order is planned or submitted; mirrored for a negative
position and sell orders. -/
theorem c3_inventory_hard_cap (cfg : GridConfig) (md : MarketData)
    (positionBtc orderSize : ℚ)
    (hcap : cfg.maxMultiplier ≤ positionMultiplier positionBtc orderSize) :
    (0 < positionBtc →
      finalRatios cfg positionBtc orderSize = (1, 0) ∧
      buyCount cfg positionBtc orderSize = 0 ∧
      (calcTargetPrices cfg md positionBtc orderSize).buyPrices = [] ∧
      ∀ p : ℚ, (Side.buy, p) ∉ executeBatchOrders
        (calcTargetPrices cfg md positionBtc orderSize).buyPrices
        (calcTargetPrices cfg md positionBtc orderSize).sellPrices) ∧
    (positionBtc < 0 →
      finalRatios cfg positionBtc orderSize = (0, 1) ∧
      sellCount cfg positionBtc orderSize = 0 ∧
      (calcTargetPrices cfg md positionBtc orderSize).sellPrices = [] ∧
      ∀ p : ℚ, (Side.sell, p) ∉ executeBatchOrders
        (calcTargetPrices cfg md positionBtc orderSize).buyPrices
        (calcTargetPrices cfg md positionBtc orderSize).sellPrices) := by
  constructor
  · intro hpos
    have hadj : adjustedRatios cfg positionBtc orderSize = (1, 0, true) := by
      simp only [adjustedRatios]
      rw [if_pos hcap, if_pos hpos]
    have hratio : finalRatios cfg positionBtc orderSize = (1, 0) := by
      simp [finalRatios, hadj]
    have hsc : sellCount cfg positionBtc orderSize = (cfg.totalOrders : ℤ) := by
      simp only [sellCount, hratio]
      rw [mul_one]
      exact roundHalfEven_natCast _
    have hbc : buyCount cfg positionBtc orderSize = 0 := by
      simp [buyCount, hsc]
    have hbuy : (calcTargetPrices cfg md positionBtc orderSize).buyPrices = [] := by
      simp [calcTargetPrices, newBuyPrices, validatedBuyPrices, idealBuyPrices, hbc]
    refine ⟨hratio, hbc, hbuy, ?_⟩
    intro p hp
    rcases List.mem_append.mp hp with h | h
    · rw [hbuy] at h; simp at h
    · rcases List.mem_map.mp h with ⟨q, _, hpair⟩
      injection hpair with hside _
      cases hside
  · intro hneg
    have hadj : adjustedRatios cfg positionBtc orderSize = (0, 1, true) := by
      simp only [adjustedRatios]
      rw [if_pos hcap, if_neg (by linarith : ¬ 0 < positionBtc), if_pos hneg]
    have hratio : finalRatios cfg positionBtc orderSize = (0, 1) := by
      simp [finalRatios, hadj]
    have hsc : sellCount cfg positionBtc orderSize = 0 := by
      simp only [sellCount, hratio]
      rw [mul_zero]
      exact_mod_cast roundHalfEven_natCast 0
    have hsell : (calcTargetPrices cfg md positionBtc orderSize).sellPrices = [] := by
      simp [calcTargetPrices, newSellPrices, validatedSellPrices, idealSellPrices, hsc]
    refine ⟨hratio, hsc, hsell, ?_⟩
    intro p hp
    rcases List.mem_append.mp hp with h | h
    · rcases List.mem_map.mp h with ⟨q, _, hpair⟩
      injection hpair with hside _
      cases hside
    · rw [hsell] at h; simp at h

/-- C3 witness: position `0.015` with `order_size = 0.001` and
`max_multiplier = 15` sits exactly at the cap; no buy orders are planned or
submitted. -/
theorem c3_inventory_hard_cap_witness :
    finalRatios exCfg (15/1000) (1/1000) = (1, 0) ∧
    buyCount exCfg (15/1000) (1/1000) = 0 ∧
    (calcTargetPrices exCfg exMdFlat (15/1000) (1/1000)).buyPrices = [] ∧
    ∀ p : ℚ, (Side.buy, p) ∉ executeBatchOrders
      (calcTargetPrices exCfg exMdFlat (15/1000) (1/1000)).buyPrices
      (calcTargetPrices exCfg exMdFlat (15/1000) (1/1000)).sellPrices :=
  (c3_inventory_hard_cap exCfg exMdFlat (15/1000) (1/1000)
    (by norm_num [positionMultiplier, safeOrderSize, exCfg, abs_of_nonneg])).1
    (by norm_num)

theorem mem_farLoop_of_mem_acc {excess : ℤ} {x : CancelOrder}
    {acc : List CancelOrder} (h : x ∈ acc) :
    ∀ l : List (CancelOrder × ℚ), x ∈ farLoop excess acc l := by
  intro l
  induction l generalizing acc with
  | nil => simpa [farLoop] using h
  | cons y ys ih =>
      by_cases h10 : 10 ≤ acc.length
      · simpa [farLoop, h10] using h
      · by_cases hex : excess ≤ (acc.length : ℤ)
        · simpa [farLoop, h10, hex] using h
        · have := @ih (acc ++ [y.1]) (List.mem_append_left _ h)
          simpa [farLoop, h10, hex] using this

theorem dupCancels_subset_cancelOrders (cfg : GridConfig) (md : MarketData)
    (positionBtc orderSize : ℚ) {x : CancelOrder}
    (h : x ∈ dupCancels cfg md positionBtc orderSize) :
    x ∈ cancelOrdersOf cfg md positionBtc orderSize := by
  simp only [cancelOrdersOf]
  split
  · exact mem_farLoop_of_mem_acc h _
  · exact h

/-- C4 counterexample: with two live buys both resting at `49980` in the
cold-start configuration (`total_orders = 4` not exceeded, `49980` not among
the tick's validated target prices), the plan cancels nothing — no duplicate
at that level is marked for cancellation by id. -/
theorem c4_duplicate_counterexample :
    exMdDup.buyOrdersByPrice =
      [(49980, [⟨"b1", Side.buy, 49980⟩, ⟨"b2", Side.buy, 49980⟩])] ∧
    (calcTargetPrices exCfg exMdDup 0 (1/1000)).cancelOrders = [] := by
  constructor
  · norm_num [exMdDup, getMarketData, addToGroups, List.filter, List.foldl]
  · norm_num [calcTargetPrices, cancelOrdersOf, dupCancels, idealPricesList,
      newSellPrices, newBuyPrices, validatedSellPrices, validatedBuyPrices,
      idealSellPrices, idealBuyPrices, sellStart, buyEnd, decRoundUpInt,
      decRoundDownInt, sellCount, buyCount, finalRatios, adjustedRatios,
      positionMultiplier, safeOrderSize, roundHalfEven, midPrice, halfWindow,
      exMdDup, getMarketData, exCfg, sortedDedupAsc, sortedDedupDesc,
      insertAsc, insertDesc, addToGroups, List.range_succ, List.takeWhile,
      List.filter, List.foldl, farWithDistance, sortFarDesc, farLoop]

/-- C4 amended: duplicates at an existing price level are cancelled by their
specific order id only when that price belongs to the tick's validated ideal
price set; in that case every order at the level except the first is marked
by id.  (A duplicated level outside the ideal set is left alone by the
duplicate phase, as the counterexample at `49980` shows.) -/
theorem c4_duplicate_collapse (cfg : GridConfig) (md : MarketData)
    (positionBtc orderSize : ℚ) :
    (∀ p orders, (p, orders) ∈ md.sellOrdersByPrice → 1 < orders.length →
      p ∈ idealPricesList cfg md positionBtc orderSize →
      ∀ o ∈ orders.tail, CancelOrder.mk Side.sell p (some o.orderId) ∈
        (calcTargetPrices cfg md positionBtc orderSize).cancelOrders) ∧
    (∀ p orders, (p, orders) ∈ md.buyOrdersByPrice → 1 < orders.length →
      p ∈ idealPricesList cfg md positionBtc orderSize →
      ∀ o ∈ orders.tail, CancelOrder.mk Side.buy p (some o.orderId) ∈
        (calcTargetPrices cfg md positionBtc orderSize).cancelOrders) := by
  constructor
  · intro p orders hmem hlen hideal o ho
    apply dupCancels_subset_cancelOrders
    apply List.mem_append_left
    rw [List.mem_flatMap]
    refine ⟨(p, orders), hmem, ?_⟩
    rw [if_pos ⟨hlen, hideal⟩]
    exact List.mem_map.mpr ⟨o, ho, rfl⟩
  · intro p orders hmem hlen hideal o ho
    apply dupCancels_subset_cancelOrders
    apply List.mem_append_right
    rw [List.mem_flatMap]
    refine ⟨(p, orders), hmem, ?_⟩
    rw [if_pos ⟨hlen, hideal⟩]
    exact List.mem_map.mpr ⟨o, ho, rfl⟩

/-- C4 witness: two live buys both at the target price `49970`; the second
one is marked for cancellation by its id. -/
theorem c4_duplicate_collapse_witness :
    CancelOrder.mk Side.buy 49970 (some "b2") ∈
      (calcTargetPrices exCfg exMdDupIdeal 0 (1/1000)).cancelOrders :=
  (c4_duplicate_collapse exCfg exMdDupIdeal 0 (1/1000)).2 49970
    [⟨"b1", Side.buy, 49970⟩, ⟨"b2", Side.buy, 49970⟩]
    (by norm_num [exMdDupIdeal, getMarketData, addToGroups, List.filter,
      List.foldl])
    (by norm_num)
    (by norm_num [idealPricesList, validatedSellPrices, validatedBuyPrices,
      idealSellPrices, idealBuyPrices, sellStart, buyEnd, decRoundUpInt,
      decRoundDownInt, sellCount, buyCount, finalRatios, adjustedRatios,
      positionMultiplier, safeOrderSize, roundHalfEven, midPrice, halfWindow,
      exMdDupIdeal, getMarketData, exCfg, sortedDedupAsc, sortedDedupDesc,
      insertAsc, insertDesc, addToGroups, List.range_succ, List.takeWhile,
      List.filter, List.foldl])
    ⟨"b2", Side.buy, 49970⟩ (by norm_num)

/-- C5 counterexample: when fetching the open orders raises, `stop()` on a
running strategy returns an error response and the strategy stays running
with its active-orders index intact — it does not transition to stopped. -/
theorem c5_stop_counterexample :
    (stopStrategy ⟨true, ["a1"]⟩
      ⟨Except.error "boom", fun _ => true, 0, Except.ok "ok"⟩).1.isRunning = true ∧
    (stopStrategy ⟨true, ["a1"]⟩
      ⟨Except.error "boom", fun _ => true, 0, Except.ok "ok"⟩).1.activeOrders = ["a1"] ∧
    (stopStrategy ⟨true, ["a1"]⟩
      ⟨Except.error "boom", fun _ => true, 0, Except.ok "ok"⟩).2.status = StopStatus.error := by
  refine ⟨rfl, rfl, rfl⟩

/-- C5 amended: `stop()` on a running strategy tolerates individual cancel
failures, a degraded position fetch and a failing reduce-only close — in all
those cases it still clears the active-orders index, sets `is_running` to
false and reports `stopped`; but when the open-orders fetch itself raises,
the exception reaches the outer handler, which returns an error response and
leaves the strategy running (see the counterexample). -/
theorem c5_stop_transitions_to_stopped (st : StrategyState) (env : StopEnv)
    (hrun : st.isRunning = true) (orders : List OpenOrder)
    (hok : env.openOrdersResult = Except.ok orders) :
    (stopStrategy st env).1.isRunning = false ∧
    (stopStrategy st env).1.activeOrders = [] ∧
    (stopStrategy st env).2.status = StopStatus.stopped := by
  simp [stopStrategy, hrun, hok]

/-- C5 witness: every cancel fails and the reduce-only close fails, yet the
strategy transitions to stopped. -/
theorem c5_stop_transitions_to_stopped_witness :
    (stopStrategy ⟨true, ["a1"]⟩
      ⟨Except.ok [⟨"o1", Side.buy, 1⟩], fun _ => false, 5,
        Except.error "close failed"⟩).1.isRunning = false ∧
    (stopStrategy ⟨true, ["a1"]⟩
      ⟨Except.ok [⟨"o1", Side.buy, 1⟩], fun _ => false, 5,
        Except.error "close failed"⟩).1.activeOrders = [] ∧
    (stopStrategy ⟨true, ["a1"]⟩
      ⟨Except.ok [⟨"o1", Side.buy, 1⟩], fun _ => false, 5,
        Except.error "close failed"⟩).2.status = StopStatus.stopped :=
  c5_stop_transitions_to_stopped ⟨true, ["a1"]⟩
    ⟨Except.ok [⟨"o1", Side.buy, 1⟩], fun _ => false, 5,
      Except.error "close failed"⟩ rfl [⟨"o1", Side.buy, 1⟩] rfl

theorem applyCacheEvent_timestamp (st : OrdersCacheState) (e : CacheEvent) :
    (applyCacheEvent st e).ordersCacheTimestamp = e.time := by
  cases e with
  | refresh t symbol v =>
      simp [applyCacheEvent, extGetOpenOrders, cacheValid, CacheEvent.time]
  | place t o => rfl
  | cancel t orderId => rfl

theorem foldl_cache_timestamp (events : List CacheEvent) :
    ∀ st : OrdersCacheState, events ≠ [] →
      ∃ e ∈ events,
        (events.foldl applyCacheEvent st).ordersCacheTimestamp = e.time := by
  induction events with
  | nil => intro st h; exact absurd rfl h
  | cons e es ih =>
      intro st _
      by_cases hnil : es = []
      · subst hnil
        exact ⟨e, List.mem_cons_self .., by simp [applyCacheEvent_timestamp]⟩
      · obtain ⟨e', he', heq⟩ := ih (applyCacheEvent st e) hnil
        exact ⟨e', List.mem_cons_of_mem _ he', by simpa using heq⟩

/-- C6: with `use_cache=true`, `get_open_orders` serves from the cache iff
the cache timestamp is nonzero (it has been populated at least once since
adapter creation, by a refresh, a place or a cancel — all of which stamp it
with a positive wall-clock time) and its age is strictly below the 5-second
TTL; when it does, the cache state is untouched, and otherwise the call
rebuilds the cache from the venue reply and stamps the entry time. -/
theorem c6_open_orders_cache :
    (∀ (st : OrdersCacheState) (symbol : Option String) (now : ℚ)
        (venueOrders : List ExtOrder), 0 ≤ st.ordersCacheTimestamp →
      (cacheValid st true now = true ↔
        (st.ordersCacheTimestamp ≠ 0 ∧ now - st.ordersCacheTimestamp < 5)) ∧
      (cacheValid st true now = true →
        (extGetOpenOrders st symbol true now venueOrders).2 = st) ∧
      (cacheValid st true now = false →
        (extGetOpenOrders st symbol true now venueOrders).2 =
          ⟨now, ((match symbol with
            | some s => venueOrders.filter (fun o : ExtOrder => o.symbol = s)
            | none => venueOrders).filter (fun o : ExtOrder =>
              o.status = "NEW" ∨ o.status = "PARTIALLY_FILLED")).map
            (fun o : ExtOrder => (o.orderId, o))⟩)) ∧
    (∀ events : List CacheEvent, (∀ e ∈ events, 0 < e.time) →
      ((events.foldl applyCacheEvent initCacheState).ordersCacheTimestamp ≠ 0 ↔
        events ≠ [])) := by
  constructor
  · intro st symbol now venueOrders h0
    refine ⟨?_, ?_, ?_⟩
    · simp only [cacheValid, ordersCacheTtl, Bool.true_and, Bool.and_eq_true,
        decide_eq_true_eq]
      exact ⟨fun ⟨h1, h2⟩ => ⟨h1.ne', h2⟩,
        fun ⟨h1, h2⟩ => ⟨lt_of_le_of_ne h0 (Ne.symm h1), h2⟩⟩
    · intro hvalid
      simp [extGetOpenOrders, hvalid]
    · intro hinvalid
      simp only [extGetOpenOrders, hinvalid, Bool.false_eq_true, if_false]
  · intro events hpos
    constructor
    · intro hne
      intro hcontra
      subst hcontra
      simp [initCacheState] at hne
    · intro hne
      obtain ⟨e, he, heq⟩ := foldl_cache_timestamp events initCacheState hne
      rw [heq]
      exact (hpos e he).ne'

/-- C6 witness: a populated cache (timestamp `10`) read at time `12` is
served from the cache; the empty trace leaves the timestamp at zero. -/
theorem c6_open_orders_cache_witness :
    ((cacheValid ⟨10, []⟩ true 12 = true ↔
        ((10 : ℚ) ≠ 0 ∧ (12 : ℚ) - 10 < 5)) ∧
      (cacheValid ⟨10, []⟩ true 12 = true →
        (extGetOpenOrders ⟨10, []⟩ none true 12 []).2 = ⟨10, []⟩) ∧
      (cacheValid ⟨10, []⟩ true 12 = false →
        (extGetOpenOrders ⟨10, []⟩ none true 12 []).2 =
          ⟨12, (([] : List ExtOrder).filter (fun o : ExtOrder =>
            o.status = "NEW" ∨ o.status = "PARTIALLY_FILLED")).map
            (fun o : ExtOrder => (o.orderId, o))⟩)) ∧
    ((([] : List CacheEvent).foldl applyCacheEvent
        initCacheState).ordersCacheTimestamp ≠ 0 ↔ ([] : List CacheEvent) ≠ []) :=
  ⟨c6_open_orders_cache.1 ⟨10, []⟩ none 12 [] (by norm_num),
    c6_open_orders_cache.2 [] (by simp)⟩

/-- C7: once the streaming book reports quotes, the subscription is dropped
(and the query falls back to REST) exactly when the best bid and ask equal
the last observed pair and the last change is strictly older than 30
seconds; at an unchanged-price age of `29.999` seconds nothing is recreated,
at `30.001` seconds the subscription is dropped. -/
theorem c7_depth_stall :
    (∀ (e : DepthPriceEntry) (curBid curAsk now : ℚ),
      ((depthStallCheck (some e) curBid curAsk now).dropSubscription = true ↔
        (e.bid = curBid ∧ e.ask = curAsk ∧ 30 < now - e.timestamp)) ∧
      ((depthStallCheck (some e) curBid curAsk now).dropSubscription = true →
        (depthStallCheck (some e) curBid curAsk now).useRest = true)) ∧
    (depthStallCheck (some ⟨50000, 50010, 0⟩) 50000 50010
      (29999/1000)).dropSubscription = false ∧
    (depthStallCheck (some ⟨50000, 50010, 0⟩) 50000 50010
      (30001/1000)).dropSubscription = true := by
  refine ⟨?_, by norm_num [depthStallCheck], by norm_num [depthStallCheck]⟩
  intro e cb ca now
  simp only [depthStallCheck]
  by_cases hpr : e.bid = cb ∧ e.ask = ca
  · rw [if_pos hpr]
    by_cases ht : 30 < now - e.timestamp
    · rw [if_pos ht]
      exact ⟨⟨fun _ => ⟨hpr.1, hpr.2, ht⟩, fun _ => rfl⟩, fun _ => rfl⟩
    · rw [if_neg ht]
      exact ⟨⟨fun hcontra => (Bool.false_ne_true hcontra).elim,
        fun hc => absurd hc.2.2 ht⟩,
        fun hcontra => (Bool.false_ne_true hcontra).elim⟩
  · rw [if_neg hpr]
    exact ⟨⟨fun hcontra => (Bool.false_ne_true hcontra).elim,
      fun hc => absurd ⟨hc.1, hc.2.1⟩ hpr⟩,
      fun hcontra => (Bool.false_ne_true hcontra).elim⟩

/-- C7 witness: unchanged quotes that are 31 seconds old drop the
subscription and fall back to REST. -/
theorem c7_depth_stall_witness :
    ((depthStallCheck (some ⟨50000, 50010, 0⟩) 50000 50010 31).dropSubscription = true ↔
      ((50000 : ℚ) = 50000 ∧ (50010 : ℚ) = 50010 ∧ (30 : ℚ) < 31 - 0)) ∧
    ((depthStallCheck (some ⟨50000, 50010, 0⟩) 50000 50010 31).dropSubscription = true →
      (depthStallCheck (some ⟨50000, 50010, 0⟩) 50000 50010 31).useRest = true) :=
  c7_depth_stall.1 ⟨50000, 50010, 0⟩ 50000 50010 31

theorem toDigitsCore_eq_digits (fuel : ℕ) :
    ∀ (n : ℕ) (acc : List Char), 0 < n → n ≤ fuel →
      Nat.toDigitsCore 10 fuel n acc =
        ((Nat.digits 10 n).map Nat.digitChar).reverse ++ acc := by
  induction fuel with
  | zero => intro n acc hn hf; omega
  | succ f ih =>
      intro n acc hn hf
      simp only [Nat.toDigitsCore]
      by_cases h10 : n / 10 = 0
      · rw [if_pos h10]
        rw [Nat.digits_def' (by norm_num : (1:ℕ) < 10) hn, h10]
        simp
      · rw [if_neg h10]
        have hpos : 0 < n / 10 := Nat.pos_of_ne_zero h10
        have hle : n / 10 ≤ f := by
          have := Nat.div_lt_self hn (by norm_num : 1 < 10)
          omega
        rw [ih (n / 10) (Nat.digitChar (n % 10) :: acc) hpos hle]
        rw [Nat.digits_def' (by norm_num : (1:ℕ) < 10) hn]
        simp

theorem repr_eq_digits (n : ℕ) (hn : 0 < n) :
    Nat.repr n = List.asString ((Nat.digits 10 n).map Nat.digitChar).reverse := by
  unfold Nat.repr Nat.toDigits
  rw [toDigitsCore_eq_digits (n+1) n [] hn (by omega)]
  simp [List.asString]

theorem digitChar_injOn : ∀ a, a < 10 → ∀ b, b < 10 →
    Nat.digitChar a = Nat.digitChar b → a = b := by decide

theorem map_digitChar_inj : ∀ (l1 l2 : List ℕ), (∀ d ∈ l1, d < 10) →
    (∀ d ∈ l2, d < 10) → l1.map Nat.digitChar = l2.map Nat.digitChar → l1 = l2
  | [], [], _, _, _ => rfl
  | [], _ :: _, _, _, h => by simp at h
  | _ :: _, [], _, _, h => by simp at h
  | a :: l1, b :: l2, h1, h2, h => by
      simp only [List.map_cons, List.cons.injEq] at h
      have hab : a = b := digitChar_injOn a (h1 a (List.mem_cons_self ..))
        b (h2 b (List.mem_cons_self ..)) h.1
      subst hab
      rw [map_digitChar_inj l1 l2 (fun d hd => h1 d (List.mem_cons_of_mem _ hd))
        (fun d hd => h2 d (List.mem_cons_of_mem _ hd)) h.2]

theorem repr_singleton_zero_absurd (n : ℕ) (hn : 0 < n)
    (h : ((Nat.digits 10 n).map Nat.digitChar).reverse = ['0']) : False := by
  have hmap : (Nat.digits 10 n).map Nat.digitChar = ['0'] := by
    have := congrArg List.reverse h
    simpa using this
  obtain ⟨d, hdig, hchar⟩ : ∃ d, Nat.digits 10 n = [d] ∧ Nat.digitChar d = '0' := by
    cases hdl : Nat.digits 10 n with
    | nil => rw [hdl] at hmap; simp at hmap
    | cons d rest =>
        rw [hdl] at hmap
        simp only [List.map_cons, List.cons.injEq] at hmap
        have : rest = [] := by
          cases rest with
          | nil => rfl
          | cons _ _ => simp at hmap
        subst this
        exact ⟨d, rfl, hmap.1⟩
  have hd10 : d < 10 := Nat.digits_lt_base (by norm_num) (hdig ▸ List.mem_singleton_self d)
  have hd0 : d = 0 := digitChar_injOn d hd10 0 (by norm_num) hchar
  subst hd0
  have := Nat.ofDigits_digits 10 n
  rw [hdig] at this
  simp [Nat.ofDigits] at this
  omega

theorem nat_repr_injective : Function.Injective Nat.repr := by
  intro m n h
  rcases Nat.eq_zero_or_pos m with hm | hm
  · subst hm
    rcases Nat.eq_zero_or_pos n with hn | hn
    · exact hn.symm
    · exfalso
      rw [repr_eq_digits n hn] at h
      exact repr_singleton_zero_absurd n hn (congrArg String.data h).symm
  · rcases Nat.eq_zero_or_pos n with hn | hn
    · subst hn
      exfalso
      rw [repr_eq_digits m hm] at h
      exact repr_singleton_zero_absurd m hm (congrArg String.data h)
    · rw [repr_eq_digits m hm, repr_eq_digits n hn] at h
      have hrev : ((Nat.digits 10 m).map Nat.digitChar).reverse =
          ((Nat.digits 10 n).map Nat.digitChar).reverse := congrArg String.data h
      have hmap := List.reverse_injective hrev
      have hdig := map_digitChar_inj (Nat.digits 10 m) (Nat.digits 10 n)
        (fun d hd => Nat.digits_lt_base (by norm_num) hd)
        (fun d hd => Nat.digits_lt_base (by norm_num) hd) hmap
      calc m = Nat.ofDigits 10 (Nat.digits 10 m) := (Nat.ofDigits_digits 10 m).symm
        _ = Nat.ofDigits 10 (Nat.digits 10 n) := by rw [hdig]
        _ = n := Nat.ofDigits_digits 10 n

theorem keyCandidate_injective (base : String) :
    Function.Injective (keyCandidate base) := by
  intro m n h
  cases m with
  | zero =>
      cases n with
      | zero => rfl
      | succ k =>
          exfalso
          have hlen := congrArg String.length h
          simp only [keyCandidate, String.length_append,
            show "_".length = 1 from rfl] at hlen
          omega
  | succ j =>
      cases n with
      | zero =>
          exfalso
          have hlen := congrArg String.length h
          simp only [keyCandidate, String.length_append,
            show "_".length = 1 from rfl] at hlen
          omega
      | succ k =>
          simp only [keyCandidate] at h
          have hdata := congrArg String.data h
          rw [String.data_append, String.data_append, String.data_append,
            String.data_append, List.append_assoc, List.append_assoc] at hdata
          have h1 := List.append_cancel_left (List.append_cancel_left hdata)
          have : Nat.repr (j + 1) = Nat.repr (k + 1) := String.ext h1
          have := nat_repr_injective this
          omega

theorem exists_free_keyCandidate (base : String) (keys : List String) :
    ∃ n, n ≤ keys.length ∧ keyCandidate base n ∉ keys := by
  by_contra hcon
  push_neg at hcon
  have hnodup : ((List.range (keys.length + 1)).map (keyCandidate base)).Nodup :=
    (List.nodup_range _).map (keyCandidate_injective base)
  have hsubset : ((List.range (keys.length + 1)).map (keyCandidate base)) ⊆ keys := by
    intro x hx
    rcases List.mem_map.mp hx with ⟨n, hn, rfl⟩
    exact hcon n (by have := List.mem_range.mp hn; omega)
  have hlen := (List.subperm_of_subset hnodup hsubset).length_le
  simp at hlen

theorem genKeyFuel_spec (base : String) (keys : List String) :
    ∀ (fuel c : Nat),
      (∃ n, c ≤ n ∧ n < c + fuel ∧ keyCandidate base n ∉ keys) →
      genKeyFuel base keys fuel c ∉ keys ∧
      ∃ n, c ≤ n ∧ genKeyFuel base keys fuel c = keyCandidate base n ∧
        ∀ m, c ≤ m → m < n → keyCandidate base m ∈ keys := by
  intro fuel
  induction fuel with
  | zero =>
      intro c h
      obtain ⟨n, h1, h2, _⟩ := h
      omega
  | succ f ih =>
      intro c hfree
      by_cases hc : keyCandidate base c ∈ keys
      · have hfree2 : ∃ n, c + 1 ≤ n ∧ n < (c + 1) + f ∧ keyCandidate base n ∉ keys := by
          obtain ⟨n, h1, h2, h3⟩ := hfree
          refine ⟨n, ?_, by omega, h3⟩
          rcases Nat.eq_or_lt_of_le h1 with heq | hlt
          · exact absurd (heq ▸ hc) h3
          · omega
        obtain ⟨hnot, n, hcn, heq, hall⟩ := ih (c + 1) hfree2
        refine ⟨?_, n, by omega, ?_, ?_⟩
        · simpa [genKeyFuel, hc] using hnot
        · simpa [genKeyFuel, hc] using heq
        · intro m hm1 hm2
          rcases Nat.eq_or_lt_of_le hm1 with heq2 | hlt2
          · exact heq2 ▸ hc
          · exact hall m (by omega) hm2
      · refine ⟨?_, c, le_rfl, ?_, ?_⟩
        · simp [genKeyFuel, hc]
        · simp [genKeyFuel, hc]
        · intro m h1 h2; omega

theorem find?_fst_map_update {α : Type} (k : String) (v : α) :
    ∀ l : List (String × α), (∃ e ∈ l, e.1 = k) →
      (l.map (fun e => if e.1 = k then (k, v) else e)).find?
        (fun e => e.1 = k) = some (k, v)
  | [], h => by simp at h
  | a :: rest, h => by
      by_cases hak : a.1 = k
      · simp [List.find?_cons, hak]
      · have hrest : ∃ e ∈ rest, e.1 = k := by
          obtain ⟨e, he, hek⟩ := h
          rcases List.mem_cons.mp he with rfl | hmem
          · exact absurd hek hak
          · exact ⟨e, hmem, hek⟩
        simp only [List.map_cons, if_neg hak]
        rw [List.find?_cons]
        have : (decide (a.1 = k)) = false := by simp [hak]
        rw [this]
        exact find?_fst_map_update k v rest hrest

theorem find?_fst_map_update_ne {α : Type} (k : String) (v : α) (k' : String)
    (hne : k' ≠ k) :
    ∀ l : List (String × α),
      (l.map (fun e => if e.1 = k then (k, v) else e)).find?
        (fun e => e.1 = k') = l.find? (fun e => e.1 = k')
  | [] => by simp
  | a :: rest => by
      by_cases hak : a.1 = k
      · simp only [List.map_cons, if_pos hak]
        rw [List.find?_cons, List.find?_cons]
        have h1 : (decide ((k, v).1 = k')) = false := by simp [Ne.symm hne]
        have h2 : (decide (a.1 = k')) = false := by
          simp [hak, Ne.symm hne]
        rw [h1, h2]
        exact find?_fst_map_update_ne k v k' hne rest
      · simp only [List.map_cons, if_neg hak]
        rw [List.find?_cons, List.find?_cons]
        by_cases hak' : a.1 = k'
        · simp [hak']
        · have h2 : (decide (a.1 = k')) = false := by simp [hak']
          rw [h2]
          exact find?_fst_map_update_ne k v k' hne rest

theorem find?_fst_none {α : Type} (k : String) (l : List (String × α))
    (h : ∀ e ∈ l, e.1 ≠ k) : l.find? (fun e => e.1 = k) = none := by
  rw [List.find?_eq_none]
  intro e he
  simp [h e he]

theorem hasField_iff_exists (r : ConfigRecord) (k : String) :
    hasField r k = true ↔ ∃ e ∈ r, e.1 = k := by
  simp [hasField, List.any_eq_true]

theorem lookupField_setField_self (r : ConfigRecord) (k v : String) :
    lookupField (setField r k v) k = some v := by
  unfold lookupField setField
  by_cases h : hasField r k
  · rw [if_pos h, find?_fst_map_update k v r ((hasField_iff_exists r k).mp h)]
  · rw [if_neg h, List.find?_append]
    rw [find?_fst_none k r]
    · simp [List.find?_cons]
    · intro e he hek
      exact h ((hasField_iff_exists r k).mpr ⟨e, he, hek⟩)

theorem lookupField_setField_ne (r : ConfigRecord) (k v k' : String)
    (hne : k' ≠ k) :
    lookupField (setField r k v) k' = lookupField r k' := by
  unfold lookupField setField
  by_cases h : hasField r k
  · rw [if_pos h, find?_fst_map_update_ne k v k' hne r]
  · rw [if_neg h, List.find?_append]
    have : ([(k, v)].find? (fun e => e.1 = k')) = none := by
      simp [List.find?_cons, Ne.symm hne]
    rw [this]
    cases r.find? (fun e => e.1 = k') <;> rfl

theorem hasField_setField_self (r : ConfigRecord) (k v : String) :
    hasField (setField r k v) k = true := by
  rw [hasField_iff_exists]
  unfold setField
  by_cases h : hasField r k
  · rw [if_pos h]
    obtain ⟨e, he, hek⟩ := (hasField_iff_exists r k).mp h
    refine ⟨(k, v), List.mem_map.mpr ⟨e, he, ?_⟩, rfl⟩
    rw [if_pos hek]
  · rw [if_neg h]
    exact ⟨(k, v), List.mem_append_right _ (List.mem_singleton_self _), rfl⟩

theorem hasField_eq_find? (r : ConfigRecord) (k : String) :
    hasField r k = (r.find? (fun e => e.1 = k)).isSome := by
  induction r with
  | nil => rfl
  | cons a rest ih =>
      rw [List.find?_cons]
      by_cases hak : a.1 = k
      · simp [hasField, hak]
      · have hh : hasField (a :: rest) k = hasField rest k := by
          simp [hasField, hak]
        rw [hh, ih]
        have hd : (decide (a.1 = k)) = false := by simp [hak]
        rw [hd]

theorem hasField_setField_ne (r : ConfigRecord) (k v k' : String)
    (hne : k' ≠ k) :
    hasField (setField r k v) k' = hasField r k' := by
  rw [hasField_eq_find?, hasField_eq_find?]
  unfold setField
  by_cases h : hasField r k
  · rw [if_pos h, find?_fst_map_update_ne k v k' hne r]
  · rw [if_neg h, List.find?_append]
    have hsing : ([(k, v)].find? (fun e => e.1 = k')) = none := by
      simp [List.find?_cons, Ne.symm hne]
    rw [hsing]
    cases r.find? (fun e => e.1 = k') <;> rfl

theorem mem_storeKeys_iff (s : ConfigStore) (k : String) :
    k ∈ storeKeys s ↔ ∃ e ∈ s, e.1 = k := by
  simp [storeKeys, List.mem_map, eq_comm]

theorem storeLookup_storeSet_self (s : ConfigStore) (k : String)
    (r : ConfigRecord) : storeLookup (storeSet s k r) k = some r := by
  unfold storeLookup storeSet
  by_cases h : k ∈ storeKeys s
  · rw [if_pos h, find?_fst_map_update k r s ((mem_storeKeys_iff s k).mp h)]
  · rw [if_neg h, List.find?_append]
    rw [find?_fst_none k s]
    · simp [List.find?_cons]
    · intro e he hek
      exact h ((mem_storeKeys_iff s k).mpr ⟨e, he, hek⟩)

theorem genAccountKey_spec (name : String) (store : ConfigStore) :
    genAccountKey name store ∉ storeKeys store ∧
    (genAccountKey name store = strToLower name ∨
      ∃ n : ℕ, 1 ≤ n ∧
        genAccountKey name store = strToLower name ++ "_" ++ Nat.repr n ∧
        ∀ m : ℕ, m < n → keyCandidate (strToLower name) m ∈ storeKeys store) := by
  obtain ⟨nf, hnf1, hnf2⟩ := exists_free_keyCandidate (strToLower name) (storeKeys store)
  obtain ⟨hnot, n, _, heq, hall⟩ := genKeyFuel_spec (strToLower name) (storeKeys store)
    ((storeKeys store).length + 1) 0 ⟨nf, by omega, by omega, hnf2⟩
  refine ⟨by simpa [genAccountKey] using hnot, ?_⟩
  cases n with
  | zero =>
      left
      simpa [genAccountKey, keyCandidate] using heq
  | succ j =>
      right
      refine ⟨j + 1, by omega, ?_, fun m hm => hall m (by omega) hm⟩
      simpa [genAccountKey, keyCandidate] using heq

/-- C9 counterexample: the claim "get_account_config returns `r` extended
with the derived account_key and a synthesized alias" fails as stated,
because `save_exchange_config` also overwrites the record's `name` field with
the lowercased venue name: saving `{"api_key": "k", "name": "OTHER"}` under
venue `Extended` yields a record whose `name` is `"extended"`, not
`"OTHER"`. -/
theorem c9_save_get_counterexample :
    genAccountKey "Extended" [] = "extended" ∧
    getAccountConfig (genAccountKey "Extended" [])
      (saveExchangeConfig "Extended" [("api_key", "k"), ("name", "OTHER")] []) =
      some [("api_key", "k"), ("name", "extended"), ("account_key", "extended"),
        ("account_alias", "Extended账号")] ∧
    lookupField [("api_key", "k"), ("name", "OTHER")] "name" = some "OTHER" ∧
    some "extended" ≠ some "OTHER" := by
  refine ⟨by decide, by decide, by decide, by decide⟩

/-- C9 amended: after `save_exchange_config(venue, r)` for a record `r`
without an `account_key` (on a keyed store the legacy check does not
misfire on), the assigned key is the lowercased venue name, or
`<venue>_<n>` for the smallest `n ≥ 1` that does not collide; and
`get_account_config` on that key returns `r` with its `name` field
overwritten by the lowercased venue name, extended with the derived
`account_key` and — when `r` carries none — a synthesized
`"<Venue>账号"` alias, all other fields unchanged. -/
theorem c9_save_get_round_trip (store : ConfigStore) (r : ConfigRecord) (venue : String)
    (hnokey : hasField r "account_key" = false)
    (_hnl1 : ¬ legacyMisdetect store)
    (_hnl2 : ¬ legacyMisdetect (saveExchangeConfig venue r store)) :
    genAccountKey venue store ∉ storeKeys store ∧
    (genAccountKey venue store = strToLower venue ∨
      ∃ n : ℕ, 1 ≤ n ∧
        genAccountKey venue store = strToLower venue ++ "_" ++ Nat.repr n ∧
        ∀ m : ℕ, m < n → keyCandidate (strToLower venue) m ∈ storeKeys store) ∧
    ∃ rr : ConfigRecord,
      getAccountConfig (genAccountKey venue store)
        (saveExchangeConfig venue r store) = some rr ∧
      lookupField rr "name" = some (strToLower venue) ∧
      lookupField rr "account_key" = some (genAccountKey venue store) ∧
      (hasField r "account_alias" = true →
        lookupField rr "account_alias" = lookupField r "account_alias") ∧
      (hasField r "account_alias" = false →
        lookupField rr "account_alias" =
          some (pythonCapitalize venue ++ "账号")) ∧
      (∀ f : String, f ≠ "name" → f ≠ "account_key" → f ≠ "account_alias" →
        lookupField rr f = lookupField r f) := by
  obtain ⟨hfree, hchar⟩ := genAccountKey_spec venue store
  refine ⟨hfree, hchar, ?_⟩
  have h1 : hasField (setField r "name" (strToLower venue)) "account_key" = false := by
    rw [hasField_setField_ne _ _ _ _ (by decide)]
    exact hnokey
  have hkey2 : hasField (setField (setField r "name" (strToLower venue))
      "account_key" (genAccountKey venue store)) "account_key" = true :=
    hasField_setField_self _ _ _
  have halias2 : hasField (setField (setField r "name" (strToLower venue))
      "account_key" (genAccountKey venue store)) "account_alias" =
      hasField r "account_alias" := by
    rw [hasField_setField_ne _ _ _ _ (by decide),
      hasField_setField_ne _ _ _ _ (by decide)]
  by_cases halias : hasField r "account_alias" = true
  · refine ⟨setField (setField r "name" (strToLower venue)) "account_key"
      (genAccountKey venue store), ?_, ?_, ?_, ?_, ?_, ?_⟩
    · simp only [saveExchangeConfig, h1, Bool.false_eq_true, if_false,
        halias2, halias, if_true, getAccountConfig,
        storeLookup_storeSet_self, hkey2]
    · rw [lookupField_setField_ne _ _ _ _ (by decide)]
      exact lookupField_setField_self _ _ _
    · exact lookupField_setField_self _ _ _
    · intro _
      rw [lookupField_setField_ne _ _ _ _ (by decide),
        lookupField_setField_ne _ _ _ _ (by decide)]
    · intro hcontra
      rw [halias] at hcontra
      cases hcontra
    · intro f hf1 hf2 hf3
      rw [lookupField_setField_ne _ _ _ _ hf2,
        lookupField_setField_ne _ _ _ _ hf1]
  · have halias' : hasField r "account_alias" = false := by
      cases h : hasField r "account_alias"
      · rfl
      · exact absurd h halias
    refine ⟨setField (setField (setField r "name" (strToLower venue))
      "account_key" (genAccountKey venue store)) "account_alias"
      (pythonCapitalize venue ++ "账号"), ?_, ?_, ?_, ?_, ?_, ?_⟩
    · have hkey3 : hasField (setField (setField (setField r "name"
          (strToLower venue)) "account_key" (genAccountKey venue store))
          "account_alias" (pythonCapitalize venue ++ "账号")) "account_key" = true := by
        rw [hasField_setField_ne _ _ _ _ (by decide)]
        exact hkey2
      have halias3 : hasField (setField (setField (setField r "name"
          (strToLower venue)) "account_key" (genAccountKey venue store))
          "account_alias" (pythonCapitalize venue ++ "账号")) "account_alias" = true :=
        hasField_setField_self _ _ _
      simp only [saveExchangeConfig, h1, Bool.false_eq_true, if_false,
        halias2, halias', getAccountConfig, storeLookup_storeSet_self,
        hkey3, halias3, if_true]
    · rw [lookupField_setField_ne _ _ _ _ (by decide),
        lookupField_setField_ne _ _ _ _ (by decide)]
      exact lookupField_setField_self _ _ _
    · rw [lookupField_setField_ne _ _ _ _ (by decide)]
      exact lookupField_setField_self _ _ _
    · intro hcontra
      rw [halias'] at hcontra
      cases hcontra
    · intro _
      exact lookupField_setField_self _ _ _
    · intro f hf1 hf2 hf3
      rw [lookupField_setField_ne _ _ _ _ hf3,
        lookupField_setField_ne _ _ _ _ hf2,
        lookupField_setField_ne _ _ _ _ hf1]

/-- C9 witness: saving a fresh record on an empty store and reading it back
through the generated key. -/
theorem c9_save_get_round_trip_witness :
    genAccountKey "Extended" [] ∉ storeKeys ([] : ConfigStore) ∧
    (genAccountKey "Extended" [] = strToLower "Extended" ∨
      ∃ n : ℕ, 1 ≤ n ∧
        genAccountKey "Extended" [] = strToLower "Extended" ++ "_" ++ Nat.repr n ∧
        ∀ m : ℕ, m < n → keyCandidate (strToLower "Extended") m ∈ storeKeys ([] : ConfigStore)) ∧
    ∃ rr : ConfigRecord,
      getAccountConfig (genAccountKey "Extended" [])
        (saveExchangeConfig "Extended" [("api_key", "k")] []) = some rr ∧
      lookupField rr "name" = some (strToLower "Extended") ∧
      lookupField rr "account_key" = some (genAccountKey "Extended" []) ∧
      (hasField [("api_key", "k")] "account_alias" = true →
        lookupField rr "account_alias" = lookupField [("api_key", "k")] "account_alias") ∧
      (hasField [("api_key", "k")] "account_alias" = false →
        lookupField rr "account_alias" =
          some (pythonCapitalize "Extended" ++ "账号")) ∧
      (∀ f : String, f ≠ "name" → f ≠ "account_key" → f ≠ "account_alias" →
        lookupField rr f = lookupField [("api_key", "k")] f) :=
  c9_save_get_round_trip [] [("api_key", "k")] "Extended" (by decide)
    (by unfold legacyMisdetect; decide) (by unfold legacyMisdetect; decide)

theorem execStep_inv {cd : ℚ} (hcd : 0 ≤ cd) {st : ClockState} {s : BatchStep}
    (hpre : 0 ≤ s.preDelta) (hplace : 0 ≤ s.placeDelta)
    (hstamp : 0 ≤ s.stampDelta)
    (hinv : (∀ t ∈ st.submissions, t ≤ st.lastOrderTime) ∧
      st.lastOrderTime ≤ st.clock ∧
      st.submissions.Pairwise (fun a b => a + cd ≤ b)) :
    (∀ t ∈ (execStep cd st s).submissions,
        t ≤ (execStep cd st s).lastOrderTime) ∧
    (execStep cd st s).lastOrderTime ≤ (execStep cd st s).clock ∧
    (execStep cd st s).submissions.Pairwise (fun a b => a + cd ≤ b) := by
  obtain ⟨hsub, hlc, hpw⟩ := hinv
  have hA : st.lastOrderTime + cd ≤
      (if st.clock + s.preDelta - st.lastOrderTime < cd
        then st.lastOrderTime + cd else st.clock + s.preDelta) := by
    split
    · exact le_refl _
    · next h => linarith [not_lt.mp h]
  have hB : st.clock ≤
      (if st.clock + s.preDelta - st.lastOrderTime < cd
        then st.lastOrderTime + cd else st.clock + s.preDelta) := by
    split
    · next h => linarith
    · linarith
  cases houtcome : s.outcome with
  | success =>
      simp only [execStep, houtcome]
      refine ⟨?_, by linarith, ?_⟩
      · intro t ht
        rcases List.mem_append.mp ht with h | h
        · have := hsub t h
          linarith
        · rcases List.mem_singleton.mp h with rfl
          linarith
      · rw [List.pairwise_append]
        refine ⟨hpw, List.pairwise_singleton .., ?_⟩
        intro a ha b hb
        rcases List.mem_singleton.mp hb with rfl
        have := hsub a ha
        linarith
  | noId =>
      simp only [execStep, houtcome]
      exact ⟨hsub, by linarith, hpw⟩
  | failure =>
      simp only [execStep, houtcome]
      exact ⟨hsub, by linarith, hpw⟩

theorem runBatch_inv {cd : ℚ} (hcd : 0 ≤ cd) (steps : List BatchStep) :
    ∀ st : ClockState,
      (∀ s ∈ steps, 0 ≤ s.preDelta ∧ 0 ≤ s.placeDelta ∧ 0 ≤ s.stampDelta) →
      ((∀ t ∈ st.submissions, t ≤ st.lastOrderTime) ∧
        st.lastOrderTime ≤ st.clock ∧
        st.submissions.Pairwise (fun a b => a + cd ≤ b)) →
      ((∀ t ∈ (runBatch cd st steps).submissions,
          t ≤ (runBatch cd st steps).lastOrderTime) ∧
        (runBatch cd st steps).lastOrderTime ≤ (runBatch cd st steps).clock ∧
        (runBatch cd st steps).submissions.Pairwise (fun a b => a + cd ≤ b)) := by
  induction steps with
  | nil => intro st _ hinv; simpa [runBatch] using hinv
  | cons s ss ih =>
      intro st hdeltas hinv
      have hstep := execStep_inv hcd (hdeltas s (List.mem_cons_self ..)).1
        (hdeltas s (List.mem_cons_self ..)).2.1
        (hdeltas s (List.mem_cons_self ..)).2.2 hinv
      have := ih (execStep cd st s)
        (fun x hx => hdeltas x (List.mem_cons_of_mem _ hx)) hstep
      simpa [runBatch] using this

/-- C8: along any batch execution of the same strategy instance (times
between iterations may pass arbitrarily, sleeps advance the clock by the
requested amount, `last_order_time` is stamped only on a submission that
returned an order id), any two successful submissions are at least
`order_cooldown` apart. -/
theorem c8_cooldown (cd : ℚ) (steps : List BatchStep) (clock0 last0 : ℚ)
    (hcd : 0 ≤ cd)
    (hdeltas : ∀ s ∈ steps,
      0 ≤ s.preDelta ∧ 0 ≤ s.placeDelta ∧ 0 ≤ s.stampDelta)
    (hinit : last0 ≤ clock0) :
    (runBatch cd ⟨clock0, last0, []⟩ steps).submissions.Pairwise
      (fun a b => a + cd ≤ b) :=
  (runBatch_inv hcd steps ⟨clock0, last0, []⟩ hdeltas
    ⟨fun t ht => absurd ht (List.not_mem_nil t), hinit,
      List.Pairwise.nil⟩).2.2

/-- C8 witness: two successful submissions with the default cooldown `1.5`
starting from a fresh instance are spaced by at least the cooldown. -/
theorem c8_cooldown_witness :
    (runBatch (3/2) ⟨0, 0, []⟩
      [⟨0, 0, 0, PlaceOutcome.success⟩,
        ⟨0, 0, 0, PlaceOutcome.success⟩]).submissions.Pairwise
      (fun a b => a + 3/2 ≤ b) :=
  c8_cooldown (3/2)
    [⟨0, 0, 0, PlaceOutcome.success⟩, ⟨0, 0, 0, PlaceOutcome.success⟩] 0 0
    (by norm_num)
    (by
      intro s hs
      rcases List.mem_cons.mp hs with h | h
      · subst h; norm_num
      · rcases List.mem_singleton.mp h with rfl; norm_num)
    le_rfl

end Wangge

namespace Wangge

theorem mem_insertFar {x y : CancelOrder × ℚ} :
    ∀ {l : List (CancelOrder × ℚ)}, x ∈ insertFar y l → x = y ∨ x ∈ l := by
  intro l
  induction l with
  | nil => intro h; simpa [insertFar] using h
  | cons a rest ih =>
      intro h
      rw [insertFar] at h
      split at h
      · rcases List.mem_cons.mp h with rfl | h2
        · exact Or.inl rfl
        · exact Or.inr h2
      · rcases List.mem_cons.mp h with rfl | h2
        · exact Or.inr (List.mem_cons_self ..)
        · rcases ih h2 with rfl | h3
          · exact Or.inl rfl
          · exact Or.inr (List.mem_cons_of_mem _ h3)

theorem mem_sortFarDesc {x : CancelOrder × ℚ} :
    ∀ {l : List (CancelOrder × ℚ)}, x ∈ sortFarDesc l → x ∈ l := by
  intro l
  induction l with
  | nil => intro h; rw [sortFarDesc] at h; exact h
  | cons a rest ih =>
      intro h
      rw [sortFarDesc] at h
      rcases mem_insertFar h with rfl | h2
      · exact List.mem_cons_self ..
      · exact List.mem_cons_of_mem _ (ih h2)

theorem mem_farLoop {x : CancelOrder} {excess : ℤ} :
    ∀ (l : List (CancelOrder × ℚ)) (acc : List CancelOrder),
      x ∈ farLoop excess acc l → x ∈ acc ∨ ∃ d : ℚ, (x, d) ∈ l := by
  intro l
  induction l with
  | nil =>
      intro acc h
      rw [farLoop] at h
      exact Or.inl h
  | cons a rest ih =>
      intro acc h
      rw [farLoop] at h
      split at h
      · exact Or.inl h
      · split at h
        · exact Or.inl h
        · rcases ih (acc ++ [a.1]) h with h2 | ⟨d, hd⟩
          · rcases List.mem_append.mp h2 with h3 | h3
            · exact Or.inl h3
            · rcases List.mem_singleton.mp h3 with rfl
              exact Or.inr ⟨a.2, List.mem_cons_self ..⟩
          · exact Or.inr ⟨d, List.mem_cons_of_mem _ hd⟩

theorem dupCancels_orderId {cfg : GridConfig} {md : MarketData}
    {positionBtc orderSize : ℚ} {c : CancelOrder}
    (h : c ∈ dupCancels cfg md positionBtc orderSize) : c.orderId ≠ none := by
  rcases List.mem_append.mp h with h1 | h1
  all_goals
    rcases List.mem_flatMap.mp h1 with ⟨g, _, hc⟩
    split at hc
    · rcases List.mem_map.mp hc with ⟨o, _, rfl⟩
      simp
    · simp at hc

theorem farWithDistance_mem {cfg : GridConfig} {md : MarketData}
    {positionBtc orderSize : ℚ} {c : CancelOrder} {d : ℚ}
    (h : (c, d) ∈ farWithDistance cfg md positionBtc orderSize) :
    cfg.safeGap * 2 ≤ d ∧ d = |c.price - midPrice md| ∧ c.orderId = none := by
  have h1 := List.mem_filter.mp h
  have hthr : cfg.safeGap * 2 ≤ d := by simpa using h1.2
  rcases List.mem_map.mp h1.1 with ⟨o, ho, hpair⟩
  injection hpair with ho1 ho2
  subst ho1
  refine ⟨hthr, ho2.symm, ?_⟩
  rcases List.mem_append.mp ho with h2 | h2
  · rcases List.mem_map.mp h2 with ⟨p, _, rfl⟩; rfl
  · rcases List.mem_map.mp h2 with ⟨p, _, rfl⟩; rfl

theorem far_cancel_min_distance {cfg : GridConfig} {md : MarketData}
    {positionBtc orderSize : ℚ} {c : CancelOrder}
    (h : c ∈ (calcTargetPrices cfg md positionBtc orderSize).cancelOrders)
    (hnone : c.orderId = none) :
    cfg.safeGap * 2 ≤ |c.price - midPrice md| := by
  have h' : c ∈ cancelOrdersOf cfg md positionBtc orderSize := h
  simp only [cancelOrdersOf] at h'
  split at h'
  · rcases mem_farLoop _ _ h' with h2 | ⟨d, hd⟩
    · exact absurd hnone (dupCancels_orderId h2)
    · obtain ⟨hthr, hdist, _⟩ := farWithDistance_mem (mem_sortFarDesc hd)
      rw [← hdist]
      exact hthr
  · exact absurd hnone (dupCancels_orderId h')


theorem insertFar_mem_of_mem {x y : CancelOrder × ℚ} :
    ∀ {l : List (CancelOrder × ℚ)}, (x = y ∨ x ∈ l) → x ∈ insertFar y l := by
  intro l
  induction l with
  | nil =>
      intro h
      rcases h with rfl | h2
      · simp [insertFar]
      · simp at h2
  | cons a rest ih =>
      intro h
      rw [insertFar]
      split
      · rcases h with rfl | h2
        · exact List.mem_cons_self ..
        · exact List.mem_cons_of_mem _ h2
      · rcases h with rfl | h2
        · exact List.mem_cons_of_mem _ (ih (Or.inl rfl))
        · rcases List.mem_cons.mp h2 with rfl | h3
          · exact List.mem_cons_self ..
          · exact List.mem_cons_of_mem _ (ih (Or.inr h3))

theorem mem_sortFarDesc_of_mem {x : CancelOrder × ℚ} :
    ∀ {l : List (CancelOrder × ℚ)}, x ∈ l → x ∈ sortFarDesc l := by
  intro l
  induction l with
  | nil => intro h; simp at h
  | cons a rest ih =>
      intro h
      rw [sortFarDesc]
      rcases List.mem_cons.mp h with rfl | h2
      · exact insertFar_mem_of_mem (Or.inl rfl)
      · exact insertFar_mem_of_mem (Or.inr (ih h2))

theorem sortFarDesc_length :
    ∀ l : List (CancelOrder × ℚ), (sortFarDesc l).length = l.length := by
  have hins : ∀ (x : CancelOrder × ℚ) (l : List (CancelOrder × ℚ)),
      (insertFar x l).length = l.length + 1 := by
    intro x l
    induction l with
    | nil => rfl
    | cons a rest ih =>
        rw [insertFar]
        split
        · rfl
        · simp [ih]
  intro l
  induction l with
  | nil => rfl
  | cons a rest ih => rw [sortFarDesc, hins, ih]; rfl

theorem farLoop_all :
    ∀ (l : List (CancelOrder × ℚ)) (acc : List CancelOrder) (excess : ℤ),
      acc.length + l.length ≤ 10 → (acc.length : ℤ) + l.length ≤ excess →
      farLoop excess acc l = acc ++ l.map (fun x => x.1) := by
  intro l
  induction l with
  | nil => intro acc excess _ _; simp [farLoop]
  | cons a rest ih =>
      intro acc excess h10 hex
      simp only [List.length_cons] at h10 hex
      rw [farLoop]
      rw [if_neg (by omega), if_neg (by omega)]
      rw [ih (acc ++ [a.1]) excess
        (by simp only [List.length_append, List.length_cons, List.length_nil]; omega)
        (by simp only [List.length_append, List.length_cons, List.length_nil]; push_cast; omega)]
      simp

theorem exists_distinct_avoiding (S : List ℚ) (a b : ℚ) (hab : a < b) (n : ℕ) :
    ∃ ps : List ℚ, ps.length = n ∧ ps.Nodup ∧
      ∀ p ∈ ps, a < p ∧ p < b ∧ p ∉ S := by
  classical
  set K := n + S.length with hK
  set f : ℕ → ℚ := fun j => a + (b - a) * (j + 1) / (K + 1) with hf
  have hfinj : Function.Injective f := by
    intro i j hij
    simp only [hf] at hij
    have hba : (0:ℚ) < b - a := by linarith
    have hK1 : (0:ℚ) < (K:ℚ) + 1 := by positivity
    have h1 : (b - a) * ((i:ℚ) + 1) / (K + 1) = (b - a) * ((j:ℚ) + 1) / (K + 1) := by
      linarith
    field_simp at h1
    rcases h1 with h | h
    · exact h
    · linarith
  have hrange : ∀ j : ℕ, j < K → a < f j ∧ f j < b := by
    intro j hj
    have hba : (0:ℚ) < b - a := by linarith
    have hK1 : (0:ℚ) < (K:ℚ) + 1 := by positivity
    constructor
    · have hpos : 0 < (b - a) * ((j:ℚ) + 1) / (K + 1) := by positivity
      simp only [hf]
      linarith
    · have hjK : ((j:ℚ) + 1) < (K:ℚ) + 1 := by
        have : (j:ℚ) < (K:ℚ) := by exact_mod_cast hj
        linarith
      have hlt2 : (b - a) * ((j:ℚ) + 1) / (K + 1) < b - a := by
        rw [div_lt_iff₀ hK1]
        have : (b - a) * ((j:ℚ) + 1) < (b - a) * ((K:ℚ) + 1) :=
          mul_lt_mul_of_pos_left hjK hba
        linarith
      simp only [hf]
      linarith
  set cand := (List.range K).map f with hcand
  have hcnodup : cand.Nodup := (List.nodup_range K).map hfinj
  have hclen : cand.length = K := by simp [hcand]
  set kept := cand.filter (fun p => decide (p ∉ S)) with hkept
  have hknodup : kept.Nodup := hcnodup.filter _
  have hdrop : (cand.filter (fun p => ! decide (p ∉ S))).length ≤ S.length := by
    have hsub : (cand.filter (fun p => ! decide (p ∉ S))) ⊆ S := by
      intro x hx
      have := List.mem_filter.mp hx
      simpa using this.2
    have hnodup2 : (cand.filter (fun p => ! decide (p ∉ S))).Nodup :=
      hcnodup.filter _
    exact (List.subperm_of_subset hnodup2 hsub).length_le
  have hklen : n ≤ kept.length := by
    have := List.length_eq_length_filter_add (l := cand)
      (fun p => decide (p ∉ S))
    rw [hclen] at this
    have hkeq : kept.length =
        (List.filter (fun p => decide (p ∉ S)) cand).length := by
      rw [hkept]
    omega
  refine ⟨kept.take n, ?_, ?_, ?_⟩
  · rw [List.length_take]
    omega
  · exact hknodup.sublist (List.take_sublist n kept)
  · intro p hp
    have hpk : p ∈ kept := List.mem_of_mem_take hp
    have h1 := List.mem_filter.mp hpk
    have h2 : p ∈ cand := h1.1
    have h3 : p ∉ S := by simpa using h1.2
    rcases List.mem_map.mp h2 with ⟨j, hj, rfl⟩
    have := hrange j (List.mem_range.mp hj)
    exact ⟨this.1, this.2, h3⟩

theorem idealPricesList_manyFarMd (cfg : GridConfig) (q : ℚ) (ps : List ℚ)
    (positionBtc orderSize : ℚ) :
    idealPricesList cfg (manyFarMd q ps) positionBtc orderSize =
      idealPricesList cfg (manyFarMd q []) positionBtc orderSize := rfl

theorem dupCancels_manyFarMd (cfg : GridConfig) (q : ℚ) (ps : List ℚ)
    (positionBtc orderSize : ℚ) :
    dupCancels cfg (manyFarMd q ps) positionBtc orderSize = [] := by
  rw [dupCancels]
  rw [show (manyFarMd q ps).sellOrdersByPrice = [] from rfl]
  rw [show (manyFarMd q ps).buyOrdersByPrice =
    ps.map (fun p => (p, [⟨"f", Side.buy, p⟩])) from rfl]
  simp only [List.flatMap_nil, List.nil_append]
  refine List.flatMap_eq_nil_iff.mpr ?_
  intro x hx
  rcases List.mem_map.mp hx with ⟨p, _, rfl⟩
  simp

theorem farWithDistance_manyFarMd_mem {cfg : GridConfig} {q : ℚ} {ps : List ℚ}
    {positionBtc orderSize : ℚ} {c : CancelOrder} {d : ℚ}
    (h : (c, d) ∈ farWithDistance cfg (manyFarMd q ps) positionBtc orderSize) :
    ∃ p ∈ ps, c = CancelOrder.mk Side.buy p none := by
  have h1 := List.mem_filter.mp h
  rcases List.mem_map.mp h1.1 with ⟨o, ho, hpair⟩
  injection hpair with ho1 _
  subst ho1
  rcases List.mem_append.mp ho with h2 | h2
  · rcases List.mem_map.mp h2 with ⟨p, hp, rfl⟩
    rw [show (manyFarMd q ps).existingSellOrders = ([] : List ℚ) from rfl] at hp
    simp at hp
  · rcases List.mem_map.mp h2 with ⟨p, hp, rfl⟩
    rw [show (manyFarMd q ps).existingBuyOrders = ps from rfl] at hp
    exact ⟨p, List.mem_of_mem_filter hp, rfl⟩

theorem farWithDistance_mem_intro {cfg : GridConfig} {md : MarketData}
    {positionBtc orderSize : ℚ} {p : ℚ}
    (hp : p ∈ md.existingBuyOrders)
    (hni : p ∉ idealPricesList cfg md positionBtc orderSize)
    (hthr : cfg.safeGap * 2 ≤ |p - midPrice md|) :
    (CancelOrder.mk Side.buy p none, |p - midPrice md|) ∈
      farWithDistance cfg md positionBtc orderSize := by
  refine List.mem_filter.mpr ⟨?_, by simpa using hthr⟩
  refine List.mem_map.mpr ⟨CancelOrder.mk Side.buy p none, ?_, rfl⟩
  refine List.mem_append.mpr (Or.inr ?_)
  exact List.mem_map.mpr ⟨p, List.mem_filter.mpr ⟨hp, by simpa using hni⟩, rfl⟩

theorem farLoop_one_head (x : CancelOrder × ℚ) (l : List (CancelOrder × ℚ)) :
    farLoop 1 [] (x :: l) = [x.1] := by
  rw [farLoop]
  rw [if_neg (by norm_num), if_neg (by norm_num)]
  cases l with
  | nil => rfl
  | cons y ys =>
      rw [farLoop]
      rw [if_neg (by norm_num)]
      rw [if_pos (by norm_num)]
      rfl

theorem far_cancel_skip_forall (cfg : GridConfig) (positionBtc orderSize : ℚ)
    (hg : 0 ≤ cfg.safeGap)
    (hlt : cfg.safeGap * 2 < cfg.basePriceInterval * cfg.maxMultiplier / 4) :
    ∃ (md : MarketData) (c : CancelOrder),
      c ∈ (calcTargetPrices cfg md positionBtc orderSize).cancelOrders ∧
      c.orderId = none ∧ cancelIsSkipped cfg md c = true := by
  classical
  obtain ⟨ps, hlen, -, hband⟩ :=
    exists_distinct_avoiding
      (idealPricesList cfg (manyFarMd 0 []) positionBtc orderSize)
      (-(cfg.basePriceInterval * cfg.maxMultiplier / 4))
      (-(cfg.safeGap * 2)) (by linarith) (cfg.totalOrders + 1)
  have hmid : midPrice (manyFarMd 0 ps) = 0 := by
    norm_num [midPrice, manyFarMd]
  have hnotin : ∀ p ∈ ps,
      p ∉ idealPricesList cfg (manyFarMd 0 ps) positionBtc orderSize := by
    intro p hp
    rw [idealPricesList_manyFarMd]
    exact (hband p hp).2.2
  have habs : ∀ p ∈ ps, |p - midPrice (manyFarMd 0 ps)| = -p := by
    intro p hp
    obtain ⟨h1, h2, -⟩ := hband p hp
    rw [hmid, sub_zero]
    exact abs_of_nonpos (by linarith)
  have hfar : ∀ p ∈ ps,
      cfg.safeGap * 2 ≤ |p - midPrice (manyFarMd 0 ps)| := by
    intro p hp
    rw [habs p hp]
    have := (hband p hp).2.1
    linarith
  have hnear : ∀ p ∈ ps, |p - midPrice (manyFarMd 0 ps)| ≤
      cfg.basePriceInterval * (cfg.maxMultiplier / 4) := by
    intro p hp
    rw [habs p hp]
    have := (hband p hp).1
    linarith [this]
  have hne : ps ≠ [] := by
    intro hcontra
    rw [hcontra] at hlen
    simp at hlen
  obtain ⟨p0, ps', rfl⟩ := List.exists_cons_of_ne_nil hne
  have hp0 : p0 ∈ p0 :: ps' := List.mem_cons_self ..
  have hmem0 : (CancelOrder.mk Side.buy p0 none,
      |p0 - midPrice (manyFarMd 0 (p0 :: ps'))|) ∈
      farWithDistance cfg (manyFarMd 0 (p0 :: ps')) positionBtc orderSize :=
    farWithDistance_mem_intro hp0 (hnotin p0 hp0) (hfar p0 hp0)
  have hsne : sortFarDesc (farWithDistance cfg (manyFarMd 0 (p0 :: ps'))
      positionBtc orderSize) ≠ [] := by
    intro hcontra
    have := mem_sortFarDesc_of_mem hmem0
    rw [hcontra] at this
    simp at this
  obtain ⟨x, rest, hsort⟩ := List.exists_cons_of_ne_nil hsne
  have hxmem : x ∈ sortFarDesc (farWithDistance cfg (manyFarMd 0 (p0 :: ps'))
      positionBtc orderSize) := by
    rw [hsort]
    exact List.mem_cons_self ..
  have hxfwd : x ∈ farWithDistance cfg (manyFarMd 0 (p0 :: ps'))
      positionBtc orderSize := mem_sortFarDesc hxmem
  have hxfwd' : (x.1, x.2) ∈ farWithDistance cfg (manyFarMd 0 (p0 :: ps'))
      positionBtc orderSize := by
    rw [Prod.mk.eta]
    exact hxfwd
  obtain ⟨p, hp, hc⟩ := farWithDistance_manyFarMd_mem hxfwd'
  have hdup : dupCancels cfg (manyFarMd 0 (p0 :: ps')) positionBtc orderSize = [] :=
    dupCancels_manyFarMd cfg 0 (p0 :: ps') positionBtc orderSize
  have hslen : ((manyFarMd 0 (p0 :: ps')).existingSellOrders.length : ℤ) = 0 := rfl
  have hblen : ((manyFarMd 0 (p0 :: ps')).existingBuyOrders.length : ℤ) =
      (cfg.totalOrders : ℤ) + 1 := by
    rw [show (manyFarMd 0 (p0 :: ps')).existingBuyOrders = p0 :: ps' from rfl]
    rw [hlen]
    push_cast
    ring
  have hcan : (calcTargetPrices cfg (manyFarMd 0 (p0 :: ps'))
      positionBtc orderSize).cancelOrders = [x.1] := by
    show cancelOrdersOf cfg (manyFarMd 0 (p0 :: ps')) positionBtc orderSize = _
    rw [cancelOrdersOf]
    simp only [hdup]
    rw [if_pos (Or.inl (by rw [hslen, hblen] at *; omega))]
    rw [show ((manyFarMd 0 (p0 :: ps')).existingSellOrders.length : ℤ) +
      ((manyFarMd 0 (p0 :: ps')).existingBuyOrders.length : ℤ) -
      (cfg.totalOrders : ℤ) = 1 from by rw [hslen, hblen]; ring]
    rw [hsort]
    exact farLoop_one_head x rest
  refine ⟨manyFarMd 0 (p0 :: ps'), x.1, ?_, ?_, ?_⟩
  · rw [hcan]
    exact List.mem_singleton.mpr rfl
  · rw [hc]
  · rw [hc]
    simp only [cancelIsSkipped]
    rw [decide_eq_true_eq]
    rw [show ((manyFarMd 0 (p0 :: ps')).askPrice +
      (manyFarMd 0 (p0 :: ps')).bidPrice) / 2 =
      midPrice (manyFarMd 0 (p0 :: ps')) from rfl]
    exact hnear p hp

theorem far_cancel_planned (interval maxMult gap quote p1 p2 : ℚ)
    (hg : 0 ≤ gap) (h1 : gap * 2 ≤ quote - p1) (h2 : gap * 2 ≤ quote - p2) :
    CancelOrder.mk Side.buy p2 none ∈
      (calcTargetPrices (skipCfg interval maxMult gap)
        (farMd quote p1 p2) 0 1).cancelOrders ∧
    |p2 - midPrice (farMd quote p1 p2)| = quote - p2 := by
  have hsc : sellCount (skipCfg interval maxMult gap) 0 1 = 0 := by
    rw [sellCount]
    rw [show ((skipCfg interval maxMult gap).totalOrders : ℚ) = 0 from rfl]
    rw [zero_mul]
    exact_mod_cast roundHalfEven_natCast 0
  have hbc : buyCount (skipCfg interval maxMult gap) 0 1 = 0 := by
    rw [buyCount, hsc]
    rfl
  have hsell : idealSellPrices (skipCfg interval maxMult gap)
      (farMd quote p1 p2) 0 1 = [] := by
    rw [idealSellPrices, hsc]
    rfl
  have hbuy : idealBuyPrices (skipCfg interval maxMult gap)
      (farMd quote p1 p2) 0 1 = [] := by
    rw [idealBuyPrices, hbc]
    rfl
  have hideal : idealPricesList (skipCfg interval maxMult gap)
      (farMd quote p1 p2) 0 1 = [] := by
    rw [idealPricesList, validatedSellPrices, validatedBuyPrices, hsell, hbuy]
    rfl
  have hdup : dupCancels (skipCfg interval maxMult gap)
      (farMd quote p1 p2) 0 1 = [] := by
    rw [dupCancels, hideal]
    rw [show (farMd quote p1 p2).sellOrdersByPrice = [] from rfl]
    rw [show (farMd quote p1 p2).buyOrdersByPrice =
      [(p1, [⟨"f1", Side.buy, p1⟩]), (p2, [⟨"f2", Side.buy, p2⟩])] from rfl]
    simp
  have hmid : midPrice (farMd quote p1 p2) = quote := by
    rw [midPrice]
    rw [show (farMd quote p1 p2).askPrice = quote from rfl]
    rw [show (farMd quote p1 p2).bidPrice = quote from rfl]
    ring
  have hd1 : |p1 - midPrice (farMd quote p1 p2)| = quote - p1 := by
    rw [hmid, show p1 - quote = -(quote - p1) by ring, abs_neg]
    exact abs_of_nonneg (by linarith)
  have hd2 : |p2 - midPrice (farMd quote p1 p2)| = quote - p2 := by
    rw [hmid, show p2 - quote = -(quote - p2) by ring, abs_neg]
    exact abs_of_nonneg (by linarith)
  have hth1 : (skipCfg interval maxMult gap).safeGap * 2 ≤
      |p1 - midPrice (farMd quote p1 p2)| := by
    rw [hd1]
    rw [show (skipCfg interval maxMult gap).safeGap = gap from rfl]
    linarith
  have hth2 : (skipCfg interval maxMult gap).safeGap * 2 ≤
      |p2 - midPrice (farMd quote p1 p2)| := by
    rw [hd2]
    rw [show (skipCfg interval maxMult gap).safeGap = gap from rfl]
    linarith
  have hfwd : farWithDistance (skipCfg interval maxMult gap)
      (farMd quote p1 p2) 0 1 =
      [(CancelOrder.mk Side.buy p1 none, |p1 - midPrice (farMd quote p1 p2)|),
        (CancelOrder.mk Side.buy p2 none, |p2 - midPrice (farMd quote p1 p2)|)] := by
    rw [farWithDistance, hideal]
    rw [show (farMd quote p1 p2).existingSellOrders = [] from rfl]
    rw [show (farMd quote p1 p2).existingBuyOrders = [p1, p2] from rfl]
    simp [hth1, hth2]
  have hcan : (calcTargetPrices (skipCfg interval maxMult gap)
      (farMd quote p1 p2) 0 1).cancelOrders =
      (sortFarDesc (farWithDistance (skipCfg interval maxMult gap)
        (farMd quote p1 p2) 0 1)).map (fun x => x.1) := by
    show cancelOrdersOf (skipCfg interval maxMult gap)
      (farMd quote p1 p2) 0 1 = _
    rw [cancelOrdersOf]
    simp only [hdup]
    rw [if_pos]
    · rw [farLoop_all]
      · rfl
      · rw [sortFarDesc_length, hfwd]
        norm_num
      · rw [sortFarDesc_length, hfwd]
        rw [show ((farMd quote p1 p2).existingSellOrders.length : ℤ) = 0 from rfl]
        rw [show ((farMd quote p1 p2).existingBuyOrders.length : ℤ) = 2 from rfl]
        rw [show (((skipCfg interval maxMult gap).totalOrders : ℕ) : ℤ) = 0
          from rfl]
        norm_num
    · left
      rw [show ((farMd quote p1 p2).existingSellOrders.length : ℤ) = 0 from rfl]
      rw [show ((farMd quote p1 p2).existingBuyOrders.length : ℤ) = 2 from rfl]
      rw [show ((skipCfg interval maxMult gap).totalOrders : ℤ) = 0 from rfl]
      norm_num
  refine ⟨?_, hd2⟩
  rw [hcan]
  refine List.mem_map.mpr ⟨(CancelOrder.mk Side.buy p2 none,
    |p2 - midPrice (farMd quote p1 p2)|), ?_, rfl⟩
  apply mem_sortFarDesc_of_mem
  rw [hfwd]
  exact List.mem_cons_of_mem _ (List.mem_cons_self ..)

/-- C10: a far-order cancellation planned without a specific order id is
skipped at apply time iff its price is within
`base_price_interval * (max_multiplier / 4)` of the mid price; every planned
far cancel lies at least `2 * safe_gap` from mid; for every configuration
with `base_price_interval * max_multiplier / 4 > 2 * safe_gap` (and any
position/order size) some market state produces a planned far cancel that is
skipped (never sent); and a planned far cancel is never skipped once the
skip threshold is below `2 * safe_gap`, which holds for the defaults
(`37.5 < 40`). -/
theorem c10_far_cancel_skip :
    (∀ (cfg : GridConfig) (md : MarketData) (c : CancelOrder),
      c.orderId = none →
      (cancelIsSkipped cfg md c = true ↔
        |c.price - midPrice md| ≤
          cfg.basePriceInterval * (cfg.maxMultiplier / 4))) ∧
    (∀ (cfg : GridConfig) (md : MarketData) (positionBtc orderSize : ℚ)
        (c : CancelOrder),
      c ∈ (calcTargetPrices cfg md positionBtc orderSize).cancelOrders →
      c.orderId = none →
      cfg.safeGap * 2 ≤ |c.price - midPrice md|) ∧
    (∀ (cfg : GridConfig) (positionBtc orderSize : ℚ),
      0 ≤ cfg.safeGap →
      cfg.safeGap * 2 < cfg.basePriceInterval * cfg.maxMultiplier / 4 →
      ∃ (md : MarketData) (c : CancelOrder),
        c ∈ (calcTargetPrices cfg md positionBtc orderSize).cancelOrders ∧
        c.orderId = none ∧ cancelIsSkipped cfg md c = true) ∧
    (∀ (cfg : GridConfig) (md : MarketData) (positionBtc orderSize : ℚ)
        (c : CancelOrder),
      c ∈ (calcTargetPrices cfg md positionBtc orderSize).cancelOrders →
      c.orderId = none →
      cfg.basePriceInterval * (cfg.maxMultiplier / 4) < cfg.safeGap * 2 →
      cancelIsSkipped cfg md c = false) ∧
    defaultGridConfig.basePriceInterval * (defaultGridConfig.maxMultiplier / 4) <
      defaultGridConfig.safeGap * 2 := by
  refine ⟨?_, ?_, ?_, ?_, ?_⟩
  · intro cfg md c hnone
    rcases c with ⟨s, p, oid⟩
    cases hnone
    simp [cancelIsSkipped, midPrice]
  · intro cfg md positionBtc orderSize c hmem hnone
    exact far_cancel_min_distance hmem hnone
  · intro cfg positionBtc orderSize hg hlt
    exact far_cancel_skip_forall cfg positionBtc orderSize hg hlt
  · intro cfg md positionBtc orderSize c hmem hnone hthr
    have hdist := far_cancel_min_distance hmem hnone
    rcases c with ⟨s, p, oid⟩
    cases hnone
    simp only [cancelIsSkipped]
    rw [decide_eq_false_iff_not]
    rw [show (md.askPrice + md.bidPrice) / 2 = midPrice md from rfl]
    intro hcontra
    simp only at hdist
    linarith
  · rw [show defaultGridConfig.basePriceInterval = 10 from rfl]
    rw [show defaultGridConfig.maxMultiplier = 15 from rfl]
    rw [show defaultGridConfig.safeGap = 20 from rfl]
    norm_num

/-- C10 witness: the skip characterization at a concrete order; a concrete
planned far cancel at distance 42 from the mid; the skipped-cancel existence
at the configuration `interval=10, max_multiplier=32, safe_gap=5` (threshold
`80 > 10`); and a planned far cancel under a sub-threshold configuration
(`interval=10, max_multiplier=15, safe_gap=20`, threshold `37.5 < 40`, the
default triple) that is not skipped. -/
theorem c10_far_cancel_skip_witness :
    (cancelIsSkipped defaultGridConfig exMdFlat
        (CancelOrder.mk Side.buy 49000 none) = true ↔
      |(49000 : ℚ) - midPrice exMdFlat| ≤
        defaultGridConfig.basePriceInterval *
          (defaultGridConfig.maxMultiplier / 4)) ∧
    ((skipCfg 10 15 20).safeGap * 2 ≤
      |(958 : ℚ) - midPrice (farMd 1000 959 958)|) ∧
    (∃ (md : MarketData) (c : CancelOrder),
      c ∈ (calcTargetPrices (skipCfg 10 32 5) md 0 1).cancelOrders ∧
      c.orderId = none ∧ cancelIsSkipped (skipCfg 10 32 5) md c = true) ∧
    cancelIsSkipped (skipCfg 10 15 20) (farMd 1000 959 958)
      (CancelOrder.mk Side.buy 958 none) = false := by
  refine ⟨?_, ?_, ?_, ?_⟩
  · exact c10_far_cancel_skip.1 defaultGridConfig exMdFlat
      (CancelOrder.mk Side.buy 49000 none) rfl
  · exact c10_far_cancel_skip.2.1 (skipCfg 10 15 20) (farMd 1000 959 958) 0 1
      (CancelOrder.mk Side.buy 958 none)
      (far_cancel_planned 10 15 20 1000 959 958 (by norm_num) (by norm_num)
        (by norm_num)).1 rfl
  · exact c10_far_cancel_skip.2.2.1 (skipCfg 10 32 5) 0 1
      (by norm_num [skipCfg]) (by norm_num [skipCfg])
  · exact c10_far_cancel_skip.2.2.2.1 (skipCfg 10 15 20) (farMd 1000 959 958)
      0 1 (CancelOrder.mk Side.buy 958 none)
      (far_cancel_planned 10 15 20 1000 959 958 (by norm_num) (by norm_num)
        (by norm_num)).1 rfl
      (by rw [show (skipCfg 10 15 20).basePriceInterval = 10 from rfl,
            show (skipCfg 10 15 20).maxMultiplier = 15 from rfl,
            show (skipCfg 10 15 20).safeGap = 20 from rfl]
          norm_num)

end Wangge
